import Mathlib

/-!
Shallow embedding of the IAM generator's command-analysis and policy-synthesis
core (parser, permission catalog lookup, analyzer) together with proofs about
the embedded operations.  Python dicts are modelled as insertion-ordered
association lists, Python sets as insertion-ordered duplicate-free lists, and
`str(...)` of a condition dict by an explicit serialiser.  Fallible code
returns `Except`.
-/

namespace IamGen

/-! ### Generic list / string helpers mirroring Python primitives -/

/-- Python `\s` whitespace class (space, tab, newline, carriage return,
vertical tab, form feed). -/
def pyIsSpace (c : Char) : Bool :=
  c = ' ' || c = '\t' || c = '\n' || c = '\r' || c = '\x0b' || c = '\x0c'

/-- Python `str.strip()` on a character list. -/
def listStrip (s : List Char) : List Char :=
  ((s.dropWhile pyIsSpace).reverse.dropWhile pyIsSpace).reverse

/-- Python `str.split()` with no argument: split on whitespace runs,
dropping empty pieces. -/
def pySplitWsAux : List Char → List Char → List (List Char)
  | [], acc => if acc.isEmpty then [] else [acc.reverse]
  | c :: cs, acc =>
    if pyIsSpace c then
      if acc.isEmpty then pySplitWsAux cs [] else acc.reverse :: pySplitWsAux cs []
    else pySplitWsAux cs (c :: acc)

def pySplitWs (s : List Char) : List (List Char) := pySplitWsAux s []

/-- Python `str.split(sep)` for a one-character separator: every occurrence
splits, empty pieces are kept. -/
def splitOnCharAux (sep : Char) : List Char → List Char → List (List Char)
  | [], acc => [acc.reverse]
  | c :: cs, acc =>
    if c = sep then acc.reverse :: splitOnCharAux sep cs []
    else splitOnCharAux sep cs (c :: acc)

def splitOnChar (sep : Char) (s : List Char) : List (List Char) :=
  splitOnCharAux sep s []

/-- Python `sep.join(parts)` for a one-character separator. -/
def joinOnChar (sep : Char) : List (List Char) → List Char
  | [] => []
  | [x] => x
  | x :: xs => x ++ sep :: joinOnChar sep xs

/-- Python `str.split(sep)` for a multi-character separator (non-overlapping,
left to right); `fuel` bounds the recursion by the input length. -/
def splitOnStrAux (sep : List Char) : Nat → List Char → List Char → List (List Char)
  | 0, s, acc => [(acc.reverse ++ s)]
  | _ + 1, [], acc => [acc.reverse]
  | fuel + 1, s, acc =>
    if sep.isPrefixOf s then
      acc.reverse :: splitOnStrAux sep fuel (s.drop sep.length) []
    else
      match s with
      | [] => [acc.reverse]
      | c :: t => splitOnStrAux sep fuel t (c :: acc)

def splitOnStr (sep s : List Char) : List (List Char) :=
  splitOnStrAux sep s.length s []

/-- Python `needle in hay` substring test. -/
def containsSub : List Char → List Char → Bool
  | hay, needle =>
    match hay with
    | [] => needle.isEmpty
    | _ :: t => needle.isPrefixOf hay || containsSub t needle

/-- Python `str.lower()` (ASCII). -/
def strLower (s : String) : String := ⟨s.data.map Char.toLower⟩

/-- Python `str.capitalize()` (ASCII): first character upper-cased, the rest
lower-cased. -/
def capitalizeChars : List Char → List Char
  | [] => []
  | c :: cs => Char.toUpper c :: cs.map Char.toLower

/-- Ordered-set insertion: Python `set.add` under the insertion-order model
used throughout this development. -/
def insertIfAbsent {α : Type} [DecidableEq α] (a : α) (l : List α) : List α :=
  if a ∈ l then l else l ++ [a]

/-- First-occurrence deduplication: the key order of a Python dict built by
repeated insertion, and the insertion-order model of `list(set(...))`. -/
def dedupFirstAux {α : Type} [DecidableEq α] (seen : List α) : List α → List α
  | [] => []
  | a :: as =>
    if a ∈ seen then dedupFirstAux seen as
    else a :: dedupFirstAux (a :: seen) as

def dedupFirst {α : Type} [DecidableEq α] (l : List α) : List α := dedupFirstAux [] l

/-- Python dict assignment `d[k] = v`: overwrite in place when the key exists,
append otherwise. -/
def dictSet {β : Type} (k : String) (v : β) (d : List (String × β)) :
    List (String × β) :=
  if d.any (fun kv => decide (kv.1 = k)) then
    d.map (fun kv => if kv.1 = k then (k, v) else kv)
  else d ++ [(k, v)]

/-- Python dict lookup `d.get(k)`. -/
def assocGet {β : Type} (d : List (String × β)) (k : String) : Option β :=
  (d.find? (fun kv => decide (kv.1 = k))).map (·.2)

/-! ### Conditions and permissions

A condition block (`Optional[Dict]` in the source, always a two-level
string dict in this code base) is an insertion-ordered association list of
condition operators to inner key/value maps. -/

abbrev CondBlock := List (String × String)

abbrev Cond := List (String × CondBlock)

/-- Python `str(...)` of an inner condition dict. -/
def pyStrOfBlock (b : CondBlock) : String :=
  "\x7b" ++
    String.intercalate ", "
      (b.map (fun kv => "\x27" ++ kv.1 ++ "\x27: \x27" ++ kv.2 ++ "\x27")) ++
    "\x7d"

/-- Python `str(permission.condition)`: `"None"` for `None`, the dict
serialisation otherwise. -/
def pyStrOfCond : Option Cond → String
  | none => "None"
  | some c =>
    "\x7b" ++
      String.intercalate ", "
        (c.map (fun kv => "\x27" ++ kv.1 ++ "\x27: " ++ pyStrOfBlock kv.2)) ++
      "\x7d"

/-- Python truthiness of an `Optional[Dict]` condition: `None` and the empty
dict are falsy. -/
def condTruthy : Option Cond → Bool
  | none => false
  | some c => !c.isEmpty

/-- `IAMPermission` value object (permissions_db.py). -/
structure IAMPermission where
  action : String
  resource : String := "*"
  condition : Option Cond := none
  effect : String := "Allow"
deriving DecidableEq, Repr

/-- `CommandPermissions` catalog entry (permissions_db.py). -/
structure CommandPermissions where
  service : String
  action : String
  permissions : List IAMPermission
  description : String := ""
  resourcePatterns : List String := []
deriving DecidableEq, Repr

/-! ### Deduplication (`_deduplicate_permissions`) -/

/-- The grouping key `(perm.action, str(perm.condition), perm.effect)`. -/
def dedupKey (p : IAMPermission) : String × String × String :=
  (p.action, pyStrOfCond p.condition, p.effect)

/-- Code-point-wise strict string comparison, matching Python `<` on the
ASCII strings this code base compares. -/
def strLtB : List Char → List Char → Bool
  | [], [] => false
  | [], _ :: _ => true
  | _ :: _, [] => false
  | a :: as, b :: bs =>
    if a.toNat < b.toNat then true
    else if b.toNat < a.toNat then false
    else strLtB as bs

/-- The Python sort key comparison of `_deduplicate_permissions`:
`(p.resource == "*", p.resource) ≤ (q.resource == "*", q.resource)`
(`False < True`, then lexicographic string order). -/
def resSortLe (p q : IAMPermission) : Bool :=
  if decide (p.resource = "*") = decide (q.resource = "*") then
    strLtB p.resource.data q.resource.data || decide (p.resource = q.resource)
  else !(decide (p.resource = "*"))

def resSortRel (p q : IAMPermission) : Prop := resSortLe p q = true

instance : DecidableRel resSortRel :=
  fun p q => inferInstanceAs (Decidable (resSortLe p q = true))

/-- One group of `_deduplicate_permissions`: a single member is kept as is;
otherwise the group is stably sorted by `resKey`, specific resources are
kept whenever any exists, and otherwise the first (sorted) member alone
survives. -/
def dedupGroupPerms (g : List IAMPermission) : List IAMPermission :=
  match g with
  | [p] => [p]
  | _ =>
    let sorted := g.insertionSort resSortRel
    let specific := sorted.filter (fun p => !(decide (p.resource = "*")))
    if specific.isEmpty then sorted.take 1 else specific

/-- `_deduplicate_permissions`: group by `dedupKey` in first-occurrence
order, then resolve each group. -/
def deduplicatePermissions (ps : List IAMPermission) : List IAMPermission :=
  (dedupFirst (ps.map dedupKey)).flatMap
    (fun k => dedupGroupPerms (ps.filter (fun p => decide (dedupKey p = k))))

/-! ### Policy assembly (`_generate_policy_document`) -/

/-- A policy statement; `condition = none` models the absence of the
`"Condition"` key. -/
structure Statement where
  effect : String
  action : List String
  resource : String
  condition : Option Cond := none
deriving DecidableEq, Repr

structure PolicyDoc where
  version : String
  statement : List Statement
deriving DecidableEq, Repr

/-- The statement grouping key `(perm.resource, perm.effect,
str(perm.condition))`. -/
def stmtKey (p : IAMPermission) : String × String × String :=
  (p.resource, p.effect, pyStrOfCond p.condition)

/-- Python `sorted(list(set(actions)))`. -/
def sortedUniqueActions (l : List String) : List String :=
  (dedupFirst l).insertionSort (· ≤ ·)

/-- The statement built for one `(resource, effect, condition)` group:
`Effect`/`Resource` from the key, the `Condition` key set from the first
member when its condition is truthy, actions sorted and de-duplicated. -/
def statementForKey (ps : List IAMPermission) (k : String × String × String) :
    Statement :=
  let g := ps.filter (fun p => decide (stmtKey p = k))
  { effect := k.2.1
    action := sortedUniqueActions (g.map (·.action))
    resource := k.1
    condition :=
      match g with
      | [] => none
      | p :: _ => if condTruthy p.condition then p.condition else none }

/-- `_generate_policy_document`. -/
def generatePolicyDocument (ps : List IAMPermission) : PolicyDoc :=
  { version := "2012-10-17"
    statement := (dedupFirst (ps.map stmtKey)).map (statementForKey ps) }

/-! ### ARN enhancement (`_enhance_single_arn`, `_enhance_arn_patterns`) -/

/-- Python truthiness of an `Optional[str]`. -/
def truthyOpt : Option String → Bool
  | none => false
  | some s => !(decide (s = ""))

/-- `_enhance_single_arn`: substitute account (segment 4) and region
(segment 3) into a 6+-segment `arn:aws:` ARN when they are `"*"`. -/
def enhanceSingleArn (arn : String) (accountId region : Option String) : String :=
  if !("arn:aws:".data.isPrefixOf arn.data) then arn
  else
    let parts := splitOnChar ':' arn.data
    if 6 ≤ parts.length then
      let parts :=
        if truthyOpt accountId && decide (parts.getD 4 [] = "*".data) then
          parts.set 4 (accountId.getD "").data
        else parts
      let parts :=
        if truthyOpt region && decide (parts.getD 3 [] = "*".data) then
          parts.set 3 (region.getD "").data
        else parts
      ⟨joinOnChar ':' parts⟩
    else arn

/-- `_enhance_arn_patterns` (all generated statements carry a single string
resource, so the list branch of the source is never taken). -/
def enhanceArnPatterns (doc : PolicyDoc) (accountId region : Option String) :
    PolicyDoc :=
  if !(truthyOpt accountId) && !(truthyOpt region) then doc
  else
    { doc with
      statement := doc.statement.map (fun st =>
        if decide (st.resource = "*") then st
        else { st with resource := enhanceSingleArn st.resource accountId region }) }

/-! ### Security conditions (`_add_security_conditions`) -/

/-- Keyword test for "data operations". -/
def isDataAction (a : String) : Bool :=
  ["get", "put", "post", "upload", "download"].any
    (fun kw => containsSub (strLower a).data kw.data)

/-- Python `dict.update({k: v})` on an inner condition block. -/
def condBlockUpsert (b : CondBlock) (k v : String) : CondBlock :=
  if b.any (fun kv => decide (kv.1 = k)) then
    b.map (fun kv => if kv.1 = k then (k, v) else kv)
  else b ++ [(k, v)]

def securityBlock : CondBlock := [("aws:SecureTransport", "true")]

/-- Merging of the secure-transport requirement into one statement's
condition (loop body of `_add_security_conditions`). -/
def addSecurityToStatement (st : Statement) : Statement :=
  if st.action.any isDataAction then
    let existing : Cond := st.condition.getD []
    let merged : Cond :=
      if existing.any (fun kv => decide (kv.1 = "Bool")) then
        existing.map (fun kv =>
          if kv.1 = "Bool" then (kv.1, condBlockUpsert kv.2 "aws:SecureTransport" "true")
          else kv)
      else existing ++ [("Bool", securityBlock)]
    { st with condition := some merged }
  else st

/-- `_add_security_conditions`. -/
def addSecurityConditions (doc : PolicyDoc) : PolicyDoc :=
  { doc with statement := doc.statement.map addSecurityToStatement }

/-! ### Command parser (parser.py) -/

/-- Parameter values: strings, or Python `True` for boolean flags and the
"value stored as its own key" convention. -/
inductive PVal where
  | s (v : String)
  | t
deriving DecidableEq, Repr

/-- `ParsedCommand` (parser.py). -/
structure ParsedCommand where
  service : String
  action : String
  parameters : List (String × PVal) := []
  resourceArns : List String := []
  rawCommand : String
deriving DecidableEq, Repr

/-- The `[a-z0-9-]` token class under `re.IGNORECASE`. -/
def isTokenChar (c : Char) : Bool := c.isAlpha || c.isDigit || c = '-'

/-- Result of the two leading regex groups plus the trailing rest. -/
structure CliMatch where
  service : List Char
  action : List Char
  rest : List Char
deriving Repr

/-- Match `^([a-z0-9-]+)\s+([a-z0-9-]+)(?:\s+(.*))?$` (IGNORECASE) starting at
`s`; `.` does not match a newline, so a newline in the rest rejects. -/
def matchTokensFrom (s : List Char) : Option CliMatch :=
  let t1 := s.takeWhile isTokenChar
  if t1.isEmpty then none
  else
    let r1 := s.drop t1.length
    let sp := r1.takeWhile pyIsSpace
    if sp.isEmpty && !r1.isEmpty then none
    else
      let r2 := r1.drop sp.length
      let t2 := r2.takeWhile isTokenChar
      if t2.isEmpty then none
      else
        match r2.drop t2.length with
        | [] => some ⟨t1, t2, []⟩
        | c :: r3 =>
          if pyIsSpace c then
            let rest := (c :: r3).dropWhile pyIsSpace
            if rest.any (fun d => d = '\n') then none else some ⟨t1, t2, rest⟩
          else none

/-- Match `^aws\s+([a-z0-9-]+)\s+([a-z0-9-]+)(?:\s+(.*))?$` (IGNORECASE). -/
def matchAwsCli (s : List Char) : Option CliMatch :=
  match s with
  | c0 :: c1 :: c2 :: rest =>
    if c0.toLower = 'a' && c1.toLower = 'w' && c2.toLower = 's' then
      let sp := rest.takeWhile pyIsSpace
      if sp.isEmpty then none else matchTokensFrom (rest.drop sp.length)
    else none
  | _ => none

/-- The placeholder denylist of `_is_valid_aws_command_format`. -/
def invalidTerms : List String :=
  ["invalid", "command", "format", "test", "example", "demo",
   "hello", "world", "foo", "bar", "baz"]

/-- `_is_valid_aws_command_format`. -/
def isValidAwsCommandFormat (service act cmd : String) : Bool :=
  if invalidTerms.contains service || invalidTerms.contains act then false
  else
    let words := pySplitWs cmd.data
    if !("aws ".data.isPrefixOf cmd.data) && words.length > 2 then
      if words.length = 3 && words.all (fun w => invalidTerms.contains ⟨w⟩) then false
      else true
    else true

/-- `SERVICE_ALIASES`. -/
def serviceAliases : List (String × String) :=
  [("ec2", "ec2"), ("s3", "s3"), ("s3api", "s3"), ("iam", "iam"),
   ("lambda", "lambda"), ("logs", "logs"), ("cloudformation", "cloudformation"),
   ("dynamodb", "dynamodb"), ("rds", "rds"), ("eks", "eks"), ("ecs", "ecs"),
   ("sns", "sns"), ("sqs", "sqs"), ("cloudwatch", "cloudwatch"), ("sts", "sts")]

def aliasService (s : String) : String := (assocGet serviceAliases s).getD s

/-! #### shlex.split (POSIX mode, whitespace_split) -/

inductive ShState where
  | ws | word | sq | dq | escW | escD

/-- State machine of `shlex.split`; `.error` models the `ValueError` raised on
an unclosed quote or a trailing escape. -/
def shlexAux : List Char → ShState → List Char → Except Unit (List String)
  | [], .ws, _ => .ok []
  | [], .word, acc => .ok [⟨acc.reverse⟩]
  | [], .sq, _ => .error ()
  | [], .dq, _ => .error ()
  | [], .escW, _ => .error ()
  | [], .escD, _ => .error ()
  | c :: cs, .ws, acc =>
    if pyIsSpace c then shlexAux cs .ws acc
    else if c = '\x27' then shlexAux cs .sq []
    else if c = '"' then shlexAux cs .dq []
    else if c = '\\' then shlexAux cs .escW []
    else shlexAux cs .word [c]
  | c :: cs, .word, acc =>
    if pyIsSpace c then (shlexAux cs .ws []).map (fun ts => ⟨acc.reverse⟩ :: ts)
    else if c = '\x27' then shlexAux cs .sq acc
    else if c = '"' then shlexAux cs .dq acc
    else if c = '\\' then shlexAux cs .escW acc
    else shlexAux cs .word (c :: acc)
  | c :: cs, .sq, acc =>
    if c = '\x27' then shlexAux cs .word acc else shlexAux cs .sq (c :: acc)
  | c :: cs, .dq, acc =>
    if c = '"' then shlexAux cs .word acc
    else if c = '\\' then shlexAux cs .escD acc
    else shlexAux cs .dq (c :: acc)
  | c :: cs, .escW, acc => shlexAux cs .word (c :: acc)
  | c :: cs, .escD, acc =>
    if c = '\\' || c = '"' then shlexAux cs .dq (c :: acc)
    else shlexAux cs .dq (c :: '\\' :: acc)

def shlexSplit (s : String) : Except Unit (List String) := shlexAux s.data .ws []

/-- Tokenisation of `_parse_parameters`: `shlex.split` with the
whitespace-split fallback on `ValueError`. -/
def pyShlexTokens (paramsStr : String) : List String :=
  match shlexSplit paramsStr with
  | .ok ts => ts
  | .error _ => (pySplitWs paramsStr.data).map (fun w => (⟨w⟩ : String))

/-- Number of keys starting with `"arg_"`, for the synthetic positional
keys. -/
def countArgKeys (d : List (String × PVal)) : Nat :=
  (d.filter (fun kv => "arg_".data.isPrefixOf kv.1.data)).length

/-- The token walk of `_parse_parameters`, written with the one-token case
inlined so the recursion is structural.  The `--name=value` test of the
source is kept in place even though it is unreachable: a token starting with
`--` is always consumed by the preceding branch. -/
def paramLoop : List String → List (String × PVal) → List (String × PVal)
  | [], d => d
  | [tok], d =>
    if "--".data.isPrefixOf tok.data then
      let name : String := ⟨tok.data.drop 2⟩
      dictSet tok .t (dictSet name .t d)
    else if containsSub tok.data "=".data && "--".data.isPrefixOf tok.data then
      -- dead branch of the source (`elif '=' in token and token.startswith('--')`)
      let full : String := ⟨(splitOnChar '=' tok.data).headD []⟩
      let name : String := ⟨full.data.drop 2⟩
      let value : String := ⟨tok.data.drop (full.data.length + 1)⟩
      dictSet value .t (dictSet full (.s value) (dictSet name (.s value) d))
    else
      let posKey : String := "arg_" ++ toString (countArgKeys d)
      dictSet tok .t (dictSet posKey (.s tok) d)
  | tok :: next :: rest2, d =>
    if "--".data.isPrefixOf tok.data then
      let name : String := ⟨tok.data.drop 2⟩
      if !("-".data.isPrefixOf next.data) then
        paramLoop rest2 (dictSet next .t (dictSet tok (.s next) (dictSet name (.s next) d)))
      else
        paramLoop (next :: rest2) (dictSet tok .t (dictSet name .t d))
    else if containsSub tok.data "=".data && "--".data.isPrefixOf tok.data then
      -- dead branch of the source (`elif '=' in token and token.startswith('--')`)
      let full : String := ⟨(splitOnChar '=' tok.data).headD []⟩
      let name : String := ⟨full.data.drop 2⟩
      let value : String := ⟨tok.data.drop (full.data.length + 1)⟩
      paramLoop (next :: rest2)
        (dictSet value .t (dictSet full (.s value) (dictSet name (.s value) d)))
    else
      let posKey : String := "arg_" ++ toString (countArgKeys d)
      paramLoop (next :: rest2) (dictSet tok .t (dictSet posKey (.s tok) d))

/-- `_parse_parameters`. -/
def parseParameters (paramsStr : String) : List (String × PVal) :=
  if (listStrip paramsStr.data).isEmpty then []
  else paramLoop (pyShlexTokens paramsStr) []

/-! #### ARN extraction -/

def isArnC1 (c : Char) : Bool := c.isAlpha || c.isDigit || c = '-'
def isArnC3 (c : Char) : Bool := c.isAlpha || c.isDigit
def isArnC4 (c : Char) : Bool :=
  c.isAlpha || c.isDigit || c = '-' || c = '/' || c = '*' || c = '.'

/-- Attempt the literal-ARN regex (IGNORECASE) at the head of `s`: the prefix
`arn:aws:` followed by four colon-separated segments over the classes
`isArnC1`, `isArnC1`, `isArnC3`, `isArnC4` (the second and third possibly
empty).  Returns the matched text and its length. -/
def tryArnAt (s : List Char) : Option (List Char × Nat) :=
  let pre := s.take 8
  if pre.map Char.toLower = "arn:aws:".data then
    let r0 := s.drop 8
    let c1 := r0.takeWhile isArnC1
    if c1.isEmpty then none
    else
      match r0.drop c1.length with
      | ':' :: r1 =>
        let c2 := r1.takeWhile isArnC1
        match r1.drop c2.length with
        | ':' :: r2 =>
          let c3 := r2.takeWhile isArnC3
          match r2.drop c3.length with
          | ':' :: r3 =>
            let c4 := r3.takeWhile isArnC4
            if c4.isEmpty then none
            else
              some (pre ++ c1 ++ ':' :: c2 ++ ':' :: c3 ++ ':' :: c4,
                    8 + c1.length + 1 + c2.length + 1 + c3.length + 1 + c4.length)
          | _ => none
        | _ => none
      | _ => none
  else none

/-- `re.findall` scan: try a match at every position, resuming after each
match; `fuel` bounds the scan by the input length. -/
def findAllAux {β : Type} (tryAt : List Char → Option (β × Nat)) :
    Nat → List Char → List β
  | 0, _ => []
  | _ + 1, [] => []
  | fuel + 1, s =>
    match tryAt s with
    | some (m, len) => m :: findAllAux tryAt fuel (s.drop (max len 1))
    | none =>
      match s with
      | [] => []
      | _ :: t => findAllAux tryAt fuel t

def findAllArns (s : List Char) : List String :=
  (findAllAux tryArnAt s.length s).map (fun m => (⟨m⟩ : String))

def isS3BucketChar (c : Char) : Bool :=
  ('a' ≤ c && c ≤ 'z') || c.isDigit || c = '.' || c = '-'

/-- Attempt `s3://([a-z0-9.-]+)(?:/([^/\s]*))?` at the head of `s`. -/
def tryS3At (s : List Char) : Option ((List Char × List Char) × Nat) :=
  if "s3://".data.isPrefixOf s then
    let r0 := s.drop 5
    let bucket := r0.takeWhile isS3BucketChar
    if bucket.isEmpty then none
    else
      match r0.drop bucket.length with
      | '/' :: r1 =>
        let key := r1.takeWhile (fun c => !(c = '/') && !(pyIsSpace c))
        some ((bucket, key), 5 + bucket.length + 1 + key.length)
      | _ => some ((bucket, []), 5 + bucket.length)
  else none

def isHexLower (c : Char) : Bool := c.isDigit || ('a' ≤ c && c ≤ 'f')

/-- Attempt `i-[0-9a-f]{8,17}` at the head of `s`. -/
def tryInstanceAt (s : List Char) : Option (List Char × Nat) :=
  match s with
  | 'i' :: '-' :: r =>
    let run := r.takeWhile isHexLower
    if 8 ≤ run.length then
      let body := run.take 17
      some ('i' :: '-' :: body, 2 + body.length)
    else none
  | _ => none

def isFuncNameChar (c : Char) : Bool :=
  c.isAlpha || c.isDigit || c = '_' || c = ':' || c = '-'

/-- Attempt `--function-name\s+([a-zA-Z0-9_:-]+)` at the head of `s`;
returns only the captured group. -/
def tryFuncNameAt (s : List Char) : Option (List Char × Nat) :=
  if "--function-name".data.isPrefixOf s then
    let r0 := s.drop 15
    let sp := r0.takeWhile pyIsSpace
    if sp.isEmpty then none
    else
      let nm := (r0.drop sp.length).takeWhile isFuncNameChar
      if nm.isEmpty then none
      else some (nm, 15 + sp.length + nm.length)
  else none

/-- `_generate_arns_from_identifiers`. -/
def generateArnsFromIdentifiers (cmd : List Char) : List String :=
  let s3Arns :=
    (findAllAux tryS3At cmd.length cmd).flatMap (fun bk =>
      let bucket : String := ⟨bk.1⟩
      if bk.2.isEmpty then ["arn:aws:s3:::" ++ bucket]
      else ["arn:aws:s3:::" ++ bucket, "arn:aws:s3:::" ++ bucket ++ "/" ++ ⟨bk.2⟩])
  let instArns :=
    (findAllAux tryInstanceAt cmd.length cmd).map
      (fun m => "arn:aws:ec2:*:*:instance/" ++ (⟨m⟩ : String))
  let funcArns :=
    if containsSub cmd "lambda".data && containsSub cmd "--function-name".data then
      (findAllAux tryFuncNameAt cmd.length cmd).map
        (fun m => "arn:aws:lambda:*:*:function:" ++ (⟨m⟩ : String))
    else []
  s3Arns ++ instArns ++ funcArns

/-- `_extract_arns`: literal ARNs, then synthesised ARNs, then
`list(set(...))`.  CPython enumerates a `set` in an unspecified,
hash-seed-dependent order; this definition fixes the first-occurrence
order as one admissible enumeration.  `setEnum` below characterises every
admissible enumeration, and any conclusion that is sensitive to the order
of `resource_arns` must be quantified over `setEnum` rather than read off
this particular choice. -/
def extractArns (cmd : List Char) : List String :=
  dedupFirst (findAllArns cmd ++ generateArnsFromIdentifiers cmd)

/-- One admissible result of `list(set(src))`: a duplicate-free list with
exactly the elements of `src`, in any order. -/
def setEnum (src out : List String) : Bool :=
  decide out.Nodup &&
    src.all (fun a => decide (a ∈ out)) && out.all (fun a => decide (a ∈ src))

/-- The `ValueError` message of `parse_command`. -/
def parseErrMsg (stripped : String) : String :=
  "Invalid AWS CLI command format: " ++ stripped

/-- `AWSCLIParser.parse_command`. -/
def parseCommand (command : String) : Except String ParsedCommand :=
  let cmd : String := ⟨listStrip command.data⟩
  let m? :=
    match matchAwsCli cmd.data with
    | some m => some m
    | none => matchTokensFrom cmd.data
  match m? with
  | none => .error (parseErrMsg cmd)
  | some m =>
    let service := strLower ⟨m.service⟩
    let act := strLower ⟨m.action⟩
    if !(isValidAwsCommandFormat service act cmd) then .error (parseErrMsg cmd)
    else
      .ok { service := aliasService service
            action := act
            parameters := parseParameters ⟨m.rest⟩
            resourceArns := extractArns cmd.data
            rawCommand := cmd }

/-! ### Permission catalog (permissions_db.py)

The catalog is the two-level mapping `service → action → CommandPermissions`.
Analyzer theorems are parametric in the catalog; `iamDB` below embeds the
portion of the static catalog exercised by the concrete theorems (the full
`s3` and `lambda` services), faithfully to the source entries. -/

abbrev Catalog := List (String × List (String × CommandPermissions))

/-- `IAMPermissionsDatabase.get_permissions_object`. -/
def getPermissionsObject (db : Catalog) (service act : String) :
    Option CommandPermissions :=
  match assocGet db (strLower service) with
  | some cmds => assocGet cmds (strLower act)
  | none => none

/-- `IAMPermissionsDatabase.get_supported_services`. -/
def getSupportedServices (db : Catalog) : List String := db.map (·.1)

/-- `IAMPermissionsDatabase._convert_action_to_iam`: kebab-case to
PascalCase. -/
def convertActionToIam (cliAction : String) : String :=
  ⟨((splitOnChar '-' cliAction.data).map capitalizeChars).flatten⟩

/-- The embedded sub-catalog (s3 and lambda services of
`_load_permissions_data`). -/
def iamDB : Catalog :=
  [("s3",
    [("ls", { service := "s3", action := "ls",
              permissions := [{ action := "s3:ListBucket", resource := "arn:aws:s3:::*" },
                              { action := "s3:ListAllMyBuckets", resource := "*" }],
              description := "List S3 buckets and objects",
              resourcePatterns := ["arn:aws:s3:::*"] }),
     ("cp", { service := "s3", action := "cp",
              permissions := [{ action := "s3:GetObject", resource := "*" },
                              { action := "s3:PutObject", resource := "*" },
                              { action := "s3:ListBucket", resource := "*" }],
              description := "Copy files to/from S3",
              resourcePatterns := ["arn:aws:s3:::*", "arn:aws:s3:::*/*"] }),
     ("sync", { service := "s3", action := "sync",
                permissions := [{ action := "s3:GetObject", resource := "*" },
                                { action := "s3:PutObject", resource := "*" },
                                { action := "s3:DeleteObject", resource := "*" },
                                { action := "s3:ListBucket", resource := "*" }],
                description := "Sync directories with S3",
                resourcePatterns := ["arn:aws:s3:::*", "arn:aws:s3:::*/*"] }),
     ("rm", { service := "s3", action := "rm",
              permissions := [{ action := "s3:DeleteObject", resource := "*" },
                              { action := "s3:ListBucket", resource := "*" }],
              description := "Remove S3 objects",
              resourcePatterns := ["arn:aws:s3:::*", "arn:aws:s3:::*/*"] }),
     ("mb", { service := "s3", action := "mb",
              permissions := [{ action := "s3:CreateBucket", resource := "*" }],
              description := "Create S3 bucket",
              resourcePatterns := ["arn:aws:s3:::*"] }),
     ("rb", { service := "s3", action := "rb",
              permissions := [{ action := "s3:DeleteBucket", resource := "*" },
                              { action := "s3:ListBucket", resource := "*" }],
              description := "Remove S3 bucket",
              resourcePatterns := ["arn:aws:s3:::*"] })]),
   ("lambda",
    [("list-functions",
      { service := "lambda", action := "list-functions",
        permissions := [{ action := "lambda:ListFunctions", resource := "*" }],
        description := "List Lambda functions",
        resourcePatterns := ["arn:aws:lambda:*:*:function/*"] }),
     ("get-function",
      { service := "lambda", action := "get-function",
        permissions := [{ action := "lambda:GetFunction", resource := "*" }],
        description := "Get Lambda function details",
        resourcePatterns := ["arn:aws:lambda:*:*:function/*"] }),
     ("invoke",
      { service := "lambda", action := "invoke",
        permissions := [{ action := "lambda:InvokeFunction", resource := "*" }],
        description := "Invoke Lambda function",
        resourcePatterns := ["arn:aws:lambda:*:*:function/*"] }),
     ("create-function",
      { service := "lambda", action := "create-function",
        permissions := [{ action := "lambda:CreateFunction", resource := "*" },
                        { action := "iam:PassRole", resource := "*" }],
        description := "Create Lambda function",
        resourcePatterns := ["arn:aws:lambda:*:*:function/*", "arn:aws:iam::*:role/*"] })])]

/-! ### Analyzer (analyzer.py, backend variant) -/

/-- `_should_use_specific_resource`: the per-service whitelist of
resource-sensitive actions. -/
def specificResourceActions : List (String × List String) :=
  [("s3", ["s3:GetObject", "s3:PutObject", "s3:DeleteObject", "s3:GetObjectAcl",
           "s3:PutObjectAcl", "s3:ListBucket", "s3:GetBucketLocation",
           "s3:GetBucketAcl", "s3:PutBucketAcl"]),
   ("ec2", ["ec2:TerminateInstances", "ec2:StopInstances", "ec2:StartInstances",
            "ec2:RebootInstances", "ec2:DescribeInstances",
            "ec2:ModifyInstanceAttribute", "ec2:GetConsoleOutput",
            "ec2:GetConsoleScreenshot"]),
   ("lambda", ["lambda:InvokeFunction", "lambda:GetFunction",
               "lambda:UpdateFunctionCode", "lambda:UpdateFunctionConfiguration",
               "lambda:DeleteFunction", "lambda:AddPermission",
               "lambda:RemovePermission"]),
   ("dynamodb", ["dynamodb:GetItem", "dynamodb:PutItem", "dynamodb:UpdateItem",
                 "dynamodb:DeleteItem", "dynamodb:Query", "dynamodb:Scan",
                 "dynamodb:BatchGetItem", "dynamodb:BatchWriteItem"]),
   ("iam", ["iam:GetUser", "iam:GetRole", "iam:GetPolicy", "iam:AttachRolePolicy",
            "iam:DetachRolePolicy", "iam:AttachUserPolicy", "iam:DetachUserPolicy",
            "iam:DeleteUser", "iam:DeleteRole"])]

def shouldUseSpecificResource (act sv : String) : Bool :=
  ((assocGet specificResourceActions sv).getD []).contains act

/-- `_select_appropriate_resource_arn`. -/
def selectAppropriateResourceArn (act : String) (resourceArns : List String) :
    Option String :=
  match resourceArns with
  | [] => none
  | _ =>
    let sv : String :=
      if containsSub act.data ":".data then ⟨(splitOnChar ':' act.data).headD []⟩
      else ""
    let matching := resourceArns.filter (fun arn =>
      containsSub arn.data sv.data ||
        ("arn:aws:" ++ sv ++ ":").data.isPrefixOf arn.data)
    match matching with
    | m :: _ => some m
    | [] => resourceArns.head?

/-- `_customize_permission_resource`. -/
def customizePermissionResource (p : IAMPermission) (pc : ParsedCommand)
    (strict : Bool) : IAMPermission :=
  let specificPick : Option IAMPermission :=
    if !pc.resourceArns.isEmpty && shouldUseSpecificResource p.action pc.service then
      match selectAppropriateResourceArn p.action pc.resourceArns with
      | some r => if r = "" then none else some { p with resource := r }
      | none => none
    else none
  match specificPick with
  | some q => q
  | none =>
    if strict && !pc.resourceArns.isEmpty then
      { p with resource := pc.resourceArns.headD p.resource }
    else p

/-- The bucket-ARN test of `_enhance_with_additional_permissions`:
starts with `arn:aws:s3:::` and no `/` after the last `:::`. -/
def s3BucketOnlyArn (arn : String) : Bool :=
  "arn:aws:s3:::".data.isPrefixOf arn.data &&
    !(containsSub ((splitOnStr ":::".data arn.data).getLastD []) "/".data)

/-- `_enhance_with_additional_permissions` (backend variant): the
multi-bucket `s3 cp` correction. -/
def enhanceWithAdditionalPermissions (perms : List IAMPermission)
    (pc : ParsedCommand) : List IAMPermission :=
  if decide (pc.service = "s3") && decide (pc.action = "cp") &&
      decide (pc.resourceArns.length > 1) then
    let bucketArns := pc.resourceArns.filter s3BucketOnlyArn
    let withList := bucketArns.foldl (fun acc b =>
      if acc.any (fun p =>
          decide (p.action = "s3:ListBucket") && containsSub p.resource.data b.data)
      then acc
      else acc ++ [{ action := "s3:ListBucket", resource := b }]) perms
    bucketArns.foldl (fun acc b =>
      acc ++ [{ action := "s3:PutObject", resource := b ++ "/*" },
              { action := "s3:GetObject", resource := b ++ "/*" }]) withList
  else perms

/-- `_generate_fallback_permission`. -/
def generateFallbackPermission (pc : ParsedCommand) : IAMPermission :=
  { action := pc.service ++ ":" ++ convertActionToIam pc.action, resource := "*" }

/-- `_get_read_only_permissions` (the fixed per-service table). -/
def readOnlyActionsTable : List (String × List String) :=
  [("s3", ["s3:ListBucket", "s3:GetBucketLocation", "s3:ListAllMyBuckets"]),
   ("ec2", ["ec2:Describe*"]),
   ("iam", ["iam:List*", "iam:Get*"]),
   ("lambda", ["lambda:List*", "lambda:Get*"]),
   ("logs", ["logs:Describe*"]),
   ("sts", ["sts:GetCallerIdentity"])]

def getReadOnlyPermissions (services : List String) : List IAMPermission :=
  services.flatMap (fun sv =>
    match assocGet readOnlyActionsTable sv with
    | some acts => acts.map (fun a => { action := a, resource := "*" })
    | none => [])

/-- Analyzer configuration: the injected catalog, the two documentation
scraper hooks (pure summaries of `_get_scraper_permissions` and
`_try_scraper_for_unknown_service`), and the debug flag. -/
structure AnalyzerCfg where
  db : Catalog
  scrKnown : String → String → List IAMPermission
  scrUnknown : String → String → List IAMPermission
  debugMode : Bool

/-- Python list repr `[a, b]` as used by the f-string warnings. -/
def pyStrListOfActions (l : List String) : String :=
  "[" ++ String.intercalate ", " (l.map (fun a => "\x27" ++ a ++ "\x27")) ++ "]"

/-- Per-command contribution to `parsed_commands`. -/
def stepParsed (cmdStr : String) : List ParsedCommand :=
  match parseCommand cmdStr with
  | .ok pc => [pc]
  | .error _ => []

/-- The permission derivation of one `analyze_commands` loop iteration for an
already parsed command: catalog hit (customise then enhance), supported-service
fallback, scraper chain, or basic fallback. -/
def cmdPermsFromParsed (cfg : AnalyzerCfg) (strict : Bool) (pc : ParsedCommand) :
    List IAMPermission :=
  match getPermissionsObject cfg.db pc.service pc.action with
  | some cp =>
    enhanceWithAdditionalPermissions
      (cp.permissions.map (fun p => customizePermissionResource p pc strict)) pc
  | none =>
    if (getSupportedServices cfg.db).contains pc.service then
      [generateFallbackPermission pc]
    else
      match cfg.scrKnown pc.service pc.action with
      | p :: ps => p :: ps
      | [] =>
        match cfg.scrUnknown pc.service pc.action with
        | p :: ps => p :: ps
        | [] => [generateFallbackPermission pc]

/-- Per-command contribution to `all_permissions` (the loop body branches of
`analyze_commands`). -/
def stepPermissions (cfg : AnalyzerCfg) (strict : Bool) (cmdStr : String) :
    List IAMPermission :=
  match parseCommand cmdStr with
  | .error _ => []
  | .ok pc => cmdPermsFromParsed cfg strict pc

/-- Per-command contribution to `missing_commands`. -/
def stepMissing (cfg : AnalyzerCfg) (cmdStr : String) : List String :=
  match parseCommand cmdStr with
  | .error _ => []
  | .ok pc =>
    match getPermissionsObject cfg.db pc.service pc.action with
    | some _ => []
    | none => [cmdStr]

/-- Per-command contribution to `warnings`. -/
def stepWarnings (cfg : AnalyzerCfg) (cmdStr : String) : List String :=
  match parseCommand cmdStr with
  | .error e => ["Failed to parse command \x27" ++ cmdStr ++ "\x27: " ++ e]
  | .ok pc =>
    match getPermissionsObject cfg.db pc.service pc.action with
    | some _ => []
    | none =>
      if (getSupportedServices cfg.db).contains pc.service then
        if cfg.debugMode then
          ["Command \x27" ++ cmdStr ++ "\x27 not found in permissions database. " ++
           "Generated fallback permission: " ++ (generateFallbackPermission pc).action]
        else []
      else
        match cfg.scrKnown pc.service pc.action with
        | p :: ps =>
          if cfg.debugMode then
            ["Command \x27" ++ cmdStr ++ "\x27 not found in permissions database. " ++
             "Used doc scraper fallback: " ++ pyStrListOfActions ((p :: ps).map (·.action))]
          else []
        | [] =>
          match cfg.scrUnknown pc.service pc.action with
          | p :: ps =>
            if cfg.debugMode then
              ["Unknown service \x27" ++ pc.service ++ "\x27 - used doc scraper: " ++
               pyStrListOfActions ((p :: ps).map (·.action))]
            else []
          | [] =>
            if cfg.debugMode then
              ["Unknown command \x27" ++ cmdStr ++ "\x27 - generated basic fallback: " ++
               (generateFallbackPermission pc).action]
            else []

/-- Per-command contribution to `all_resource_arns` (collected only on a
catalog hit). -/
def stepArns (cfg : AnalyzerCfg) (cmdStr : String) : List String :=
  match parseCommand cmdStr with
  | .error _ => []
  | .ok pc =>
    match getPermissionsObject cfg.db pc.service pc.action with
    | some _ => pc.resourceArns
    | none => []

/-- Per-command contribution to `services_used`. -/
def stepService (cmdStr : String) : Option String :=
  match parseCommand cmdStr with
  | .ok pc => some pc.service
  | .error _ => none

/-- The mutable loop state of `analyze_commands`. -/
structure LoopState where
  parsedCommands : List ParsedCommand := []
  allPermissions : List IAMPermission := []
  missingCommands : List String := []
  warnings : List String := []
  allResourceArns : List String := []
  servicesUsed : List String := []
deriving Repr

/-- One iteration of the `analyze_commands` loop: each aggregate only grows
by the per-command contribution, none of the branches reads the
accumulated lists. -/
def stepCommand (cfg : AnalyzerCfg) (strict : Bool) (s : LoopState)
    (cmdStr : String) : LoopState :=
  { parsedCommands := s.parsedCommands ++ stepParsed cmdStr
    allPermissions := s.allPermissions ++ stepPermissions cfg strict cmdStr
    missingCommands := s.missingCommands ++ stepMissing cfg cmdStr
    warnings := s.warnings ++ stepWarnings cfg cmdStr
    allResourceArns := s.allResourceArns ++ stepArns cfg cmdStr
    servicesUsed :=
      match stepService cmdStr with
      | some sv => insertIfAbsent sv s.servicesUsed
      | none => s.servicesUsed }

/-- `AnalysisResult`. -/
structure AnalysisResult where
  commands : List ParsedCommand
  requiredPermissions : List IAMPermission
  policyDocument : PolicyDoc
  missingCommands : List String
  warnings : List String
  resourceArns : List String
  servicesUsed : List String
deriving Repr

/-- `analyze_commands`. -/
def analyzeCommands (cfg : AnalyzerCfg) (commands : List String)
    (strict includeReadOnly : Bool) : AnalysisResult :=
  let st := commands.foldl (stepCommand cfg strict) ⟨[], [], [], [], [], []⟩
  let allPerms :=
    if includeReadOnly then st.allPermissions ++ getReadOnlyPermissions st.servicesUsed
    else st.allPermissions
  let uniq := deduplicatePermissions allPerms
  { commands := st.parsedCommands
    requiredPermissions := uniq
    policyDocument := generatePolicyDocument uniq
    missingCommands := st.missingCommands
    warnings := st.warnings
    resourceArns := dedupFirst st.allResourceArns
    servicesUsed := st.servicesUsed }

/-- The dict returned by the single-command wrapper `analyze_command`. -/
structure SingleCommandOutput where
  service : String
  action : String
  originalCommand : String
  requiredPermissions : List (String × String × Option Cond)
  policyDocument : PolicyDoc
  resourceArns : List String
  warnings : List String
deriving Repr

/-- `analyze_command`: runs the batch on a singleton and raises
(`.error`) when nothing was parsed. -/
def analyzeCommand (cfg : AnalyzerCfg) (command : String)
    (strict includeReadOnly : Bool) : Except String SingleCommandOutput :=
  let result := analyzeCommands cfg [command] strict includeReadOnly
  match result.commands with
  | [] => .error ("Failed to parse command: " ++ command)
  | pc :: _ =>
    .ok { service := pc.service
          action := pc.action
          originalCommand := command
          requiredPermissions :=
            result.requiredPermissions.map (fun p => (p.action, p.resource, p.condition))
          policyDocument := result.policyDocument
          resourceArns := result.resourceArns
          warnings := result.warnings }

/-- The intermediate document of `generate_least_privilege_policy` right
before `_add_security_conditions`: strict analysis, then ARN enhancement
when an account or region was supplied. -/
def leastPrivilegeBase (cfg : AnalyzerCfg) (commands : List String)
    (accountId region : Option String) : PolicyDoc :=
  let analysis := analyzeCommands cfg commands true true
  if truthyOpt accountId || truthyOpt region then
    enhanceArnPatterns analysis.policyDocument accountId region
  else analysis.policyDocument

/-- `generate_least_privilege_policy`. -/
def generateLeastPrivilegePolicy (cfg : AnalyzerCfg) (commands : List String)
    (accountId region : Option String) : PolicyDoc :=
  addSecurityConditions (leastPrivilegeBase cfg commands accountId region)

/-! ### Service summary (`get_service_summary`) -/

/-- One service entry of the summary (sets modelled as insertion-ordered
duplicate-free lists). -/
structure ServiceSummary where
  actions : List String := []
  permissions : List String := []
  resources : List String := []
deriving DecidableEq, Repr

/-- First loop body of `get_service_summary`: register the command's
service, action and discovered ARNs. -/
def summaryAddCmd (sm : List (String × ServiceSummary)) (pc : ParsedCommand) :
    List (String × ServiceSummary) :=
  let sm :=
    if sm.any (fun kv => decide (kv.1 = pc.service)) then sm
    else sm ++ [(pc.service, ⟨[], [], []⟩)]
  sm.map (fun kv =>
    if kv.1 = pc.service then
      (kv.1, { kv.2 with
               actions := insertIfAbsent pc.action kv.2.actions
               resources := pc.resourceArns.foldl (fun r a => insertIfAbsent a r)
                              kv.2.resources })
    else kv)

/-- The service named by a permission's action (the part before `":"`, or
`"unknown"`). -/
def actionServiceOf (act : String) : String :=
  if containsSub act.data ":".data then ⟨(splitOnChar ':' act.data).headD []⟩
  else "unknown"

/-- Second loop body of `get_service_summary`: attribute one required
permission, dropped when its service is not a key of the summary. -/
def summaryAddPerm (sm : List (String × ServiceSummary)) (p : IAMPermission) :
    List (String × ServiceSummary) :=
  let sv := actionServiceOf p.action
  if sm.any (fun kv => decide (kv.1 = sv)) then
    sm.map (fun kv =>
      if kv.1 = sv then
        (kv.1, { kv.2 with permissions := insertIfAbsent p.action kv.2.permissions })
      else kv)
  else sm

/-- `get_service_summary`. -/
def getServiceSummary (cfg : AnalyzerCfg) (commands : List String) :
    List (String × ServiceSummary) :=
  let analysis := analyzeCommands cfg commands false true
  let sm := analysis.commands.foldl summaryAddCmd []
  analysis.requiredPermissions.foldl summaryAddPerm sm

/-! ### Lemmas about the ordered-set helpers -/

theorem mem_dedupFirstAux {α : Type} [DecidableEq α] (a : α) :
    ∀ (l seen : List α), a ∈ dedupFirstAux seen l ↔ a ∈ l ∧ a ∉ seen
  | [], seen => by simp [dedupFirstAux]
  | b :: t, seen => by
    by_cases hb : b ∈ seen
    · rw [dedupFirstAux, if_pos hb, mem_dedupFirstAux a t seen]
      constructor
      · rintro ⟨h1, h2⟩
        exact ⟨List.mem_cons_of_mem _ h1, h2⟩
      · rintro ⟨h1, h2⟩
        refine ⟨?_, h2⟩
        rcases List.mem_cons.mp h1 with rfl | h1
        · exact absurd hb h2
        · exact h1
    · rw [dedupFirstAux, if_neg hb, List.mem_cons, mem_dedupFirstAux a t (b :: seen)]
      constructor
      · rintro (rfl | ⟨h1, h2⟩)
        · exact ⟨List.mem_cons_self _ _, hb⟩
        · exact ⟨List.mem_cons_of_mem _ h1, fun hs => h2 (List.mem_cons_of_mem _ hs)⟩
      · rintro ⟨h1, h2⟩
        by_cases hab : a = b
        · exact Or.inl hab
        · right
          rcases List.mem_cons.mp h1 with rfl | h1
          · exact absurd rfl hab
          · refine ⟨h1, fun hs => ?_⟩
            rcases List.mem_cons.mp hs with rfl | hs
            · exact hab rfl
            · exact h2 hs

theorem mem_dedupFirst {α : Type} [DecidableEq α] {a : α} {l : List α} :
    a ∈ dedupFirst l ↔ a ∈ l := by
  rw [dedupFirst, mem_dedupFirstAux]
  simp

theorem nodup_dedupFirstAux {α : Type} [DecidableEq α] :
    ∀ (l seen : List α), (dedupFirstAux seen l).Nodup
  | [], _ => List.nodup_nil
  | b :: t, seen => by
    by_cases hb : b ∈ seen
    · rw [dedupFirstAux, if_pos hb]
      exact nodup_dedupFirstAux t seen
    · rw [dedupFirstAux, if_neg hb]
      refine List.nodup_cons.mpr ⟨fun hmem => ?_, nodup_dedupFirstAux t (b :: seen)⟩
      exact ((mem_dedupFirstAux b t (b :: seen)).mp hmem).2 (List.mem_cons_self _ _)

theorem nodup_dedupFirst {α : Type} [DecidableEq α] (l : List α) :
    (dedupFirst l).Nodup :=
  nodup_dedupFirstAux l []

theorem dedupFirst_ne_nil {α : Type} [DecidableEq α] {l : List α} (h : l ≠ []) :
    dedupFirst l ≠ [] := by
  rcases l with _ | ⟨a, t⟩
  · exact absurd rfl h
  · intro hnil
    have : a ∈ dedupFirst (a :: t) := mem_dedupFirst.mpr (List.mem_cons_self _ _)
    rw [hnil] at this
    exact absurd this (List.not_mem_nil a)

theorem mem_insertIfAbsent {α : Type} [DecidableEq α] {a b : α} {l : List α} :
    b ∈ insertIfAbsent a l ↔ b = a ∨ b ∈ l := by
  unfold insertIfAbsent
  split
  · rename_i ha
    constructor
    · exact Or.inr
    · rintro (rfl | hb)
      · exact ha
      · exact hb
  · simp [or_comm]

theorem self_mem_insertIfAbsent {α : Type} [DecidableEq α] (a : α) (l : List α) :
    a ∈ insertIfAbsent a l :=
  mem_insertIfAbsent.mpr (Or.inl rfl)

theorem mem_insertIfAbsent_of_mem {α : Type} [DecidableEq α] {b : α} (a : α)
    {l : List α} (h : b ∈ l) : b ∈ insertIfAbsent a l :=
  mem_insertIfAbsent.mpr (Or.inr h)

/-- A stable sort leaves a list with pairwise related elements unchanged. -/
theorem insertionSort_of_all_rel {α : Type} (r : α → α → Prop) [DecidableRel r] :
    ∀ (l : List α), (∀ a ∈ l, ∀ b ∈ l, r a b) → l.insertionSort r = l
  | [], _ => rfl
  | a :: t, h => by
    rw [List.insertionSort_cons r
        (fun b hb => h a (List.mem_cons_self _ _) b (List.mem_cons_of_mem _ hb)),
      insertionSort_of_all_rel r t
        (fun x hx y hy => h x (List.mem_cons_of_mem _ hx) y (List.mem_cons_of_mem _ hy))]

/-! ### Lemmas about `_deduplicate_permissions` -/

theorem dedupGroupPerms_cons_cons (a b : IAMPermission) (u : List IAMPermission) :
    dedupGroupPerms (a :: b :: u) =
      (if (((a :: b :: u).insertionSort resSortRel).filter
            (fun p => !(decide (p.resource = "*")))).isEmpty then
        ((a :: b :: u).insertionSort resSortRel).take 1
      else
        ((a :: b :: u).insertionSort resSortRel).filter
          (fun p => !(decide (p.resource = "*")))) := rfl

theorem mem_of_mem_dedupGroupPerms {g : List IAMPermission} {p : IAMPermission}
    (h : p ∈ dedupGroupPerms g) : p ∈ g := by
  match g with
  | [] => simp [dedupGroupPerms] at h
  | [q] => simpa [dedupGroupPerms] using h
  | a :: b :: u =>
    rw [dedupGroupPerms_cons_cons] at h
    split at h
    · exact (List.mem_insertionSort resSortRel).mp (List.take_subset 1 _ h)
    · exact (List.mem_insertionSort resSortRel).mp (List.mem_filter.mp h).1

theorem dedupGroupPerms_ne_nil {g : List IAMPermission} (h : g ≠ []) :
    dedupGroupPerms g ≠ [] := by
  match g with
  | [] => exact absurd rfl h
  | [q] => simp [dedupGroupPerms]
  | a :: b :: u =>
    rw [dedupGroupPerms_cons_cons]
    split
    · intro htake
      have hlen := congrArg List.length htake
      rw [List.length_take, List.length_insertionSort] at hlen
      simp at hlen
    · rename_i hspec
      simpa using hspec

theorem dedupKey_of_mem_group {ps : List IAMPermission} {k : String × String × String}
    {p : IAMPermission} (h : p ∈ ps.filter (fun p => decide (dedupKey p = k))) :
    dedupKey p = k :=
  of_decide_eq_true (List.mem_filter.mp h).2

/-- The same-key slice of the deduplicated output is exactly the resolved
group of that key. -/
theorem filter_deduplicate_eq_group (ps : List IAMPermission)
    (k : String × String × String) :
    (deduplicatePermissions ps).filter (fun p => decide (dedupKey p = k)) =
      if k ∈ ps.map dedupKey then
        dedupGroupPerms (ps.filter (fun p => decide (dedupKey p = k)))
      else [] := by
  have block :
      ∀ ks : List (String × String × String), ks.Nodup →
        (ks.flatMap (fun k' =>
            List.filter (fun p => decide (dedupKey p = k))
              (dedupGroupPerms (ps.filter (fun p => decide (dedupKey p = k')))))) =
          if k ∈ ks then
            dedupGroupPerms (ps.filter (fun p => decide (dedupKey p = k)))
          else [] := by
    intro ks hnd
    induction ks with
    | nil => simp
    | cons k' ks ih =>
      have hnd' := List.nodup_cons.mp hnd
      rw [List.flatMap_cons, ih hnd'.2]
      by_cases hkk : k' = k
      · subst hkk
        have hfull :
            List.filter (fun p => decide (dedupKey p = k'))
              (dedupGroupPerms (ps.filter (fun p => decide (dedupKey p = k')))) =
            dedupGroupPerms (ps.filter (fun p => decide (dedupKey p = k'))) := by
          refine List.filter_eq_self.mpr (fun q hq => ?_)
          exact decide_eq_true (dedupKey_of_mem_group (mem_of_mem_dedupGroupPerms hq))
        rw [hfull, if_pos (List.mem_cons_self _ _), if_neg hnd'.1]
        simp
      · have hnil :
            List.filter (fun p => decide (dedupKey p = k))
              (dedupGroupPerms (ps.filter (fun p => decide (dedupKey p = k')))) = [] := by
          refine List.filter_eq_nil_iff.mpr (fun q hq => ?_)
          have : dedupKey q = k' := dedupKey_of_mem_group (mem_of_mem_dedupGroupPerms hq)
          simp [this, hkk]
        rw [hnil, List.nil_append]
        by_cases hk : k ∈ ks
        · rw [if_pos hk, if_pos (List.mem_cons_of_mem _ hk)]
        · rw [if_neg hk, if_neg]
          intro hmem
          rcases List.mem_cons.mp hmem with rfl | hmem
          · exact hkk rfl
          · exact hk hmem
  rw [deduplicatePermissions, List.filter_flatMap,
    block (dedupFirst (ps.map dedupKey)) (nodup_dedupFirst _)]
  by_cases hk : k ∈ ps.map dedupKey
  · rw [if_pos (mem_dedupFirst.mpr hk), if_pos hk]
  · rw [if_neg (fun h => hk (mem_dedupFirst.mp h)), if_neg hk]

theorem resSortRel_of_wildcard {p q : IAMPermission} (hp : p.resource = "*")
    (hq : q.resource = "*") : resSortRel p q := by
  unfold resSortRel resSortLe
  rw [hp, hq]
  decide

/-- All-wildcard groups resolve to their (unchanged) first element. -/
theorem dedupGroupPerms_all_wildcard {g : List IAMPermission} (hne : g ≠ [])
    (hall : ∀ p ∈ g, p.resource = "*") :
    ∃ p ∈ g, dedupGroupPerms g = [p] := by
  match g with
  | [] => exact absurd rfl hne
  | [q] => exact ⟨q, List.mem_cons_self _ _, rfl⟩
  | a :: b :: u =>
    have hsorted : (a :: b :: u).insertionSort resSortRel = a :: b :: u :=
      insertionSort_of_all_rel resSortRel _
        (fun x hx y hy => resSortRel_of_wildcard (hall x hx) (hall y hy))
    have hspec :
        (List.filter (fun p => !(decide (p.resource = "*")))
          ((a :: b :: u).insertionSort resSortRel)) = [] := by
      refine List.filter_eq_nil_iff.mpr (fun q hq => ?_)
      have := hall q ((List.mem_insertionSort resSortRel).mp hq)
      simp [this]
    refine ⟨a, List.mem_cons_self _ _, ?_⟩
    rw [dedupGroupPerms_cons_cons, hspec, hsorted]
    simp

/-- Mixed groups resolve to (a permutation of) their non-wildcard members. -/
theorem dedupGroupPerms_mixed {g : List IAMPermission}
    (hmix : ∃ p ∈ g, p.resource ≠ "*") :
    (dedupGroupPerms g).Perm
      (g.filter (fun p => !(decide (p.resource = "*")))) := by
  obtain ⟨w, hw, hwres⟩ := hmix
  match g with
  | [] => cases hw
  | [q] =>
    rcases List.mem_cons.mp hw with rfl | h
    · simp [dedupGroupPerms, hwres]
    · cases h
  | a :: b :: u =>
    rw [dedupGroupPerms_cons_cons]
    have hperm := (List.perm_insertionSort resSortRel (a :: b :: u)).filter
      (fun p => !(decide (p.resource = "*")))
    have hne : (List.filter (fun p => !(decide (p.resource = "*")))
        ((a :: b :: u).insertionSort resSortRel)) ≠ [] := by
      intro hnil
      have hw' : w ∈ (a :: b :: u).insertionSort resSortRel :=
        (List.mem_insertionSort resSortRel).mpr hw
      have : w ∈ List.filter (fun p => !(decide (p.resource = "*")))
          ((a :: b :: u).insertionSort resSortRel) :=
        List.mem_filter.mpr ⟨hw', by simp [hwres]⟩
      rw [hnil] at this
      exact absurd this (List.not_mem_nil w)
    rw [if_neg (by simpa using hne)]
    exact hperm

/-- C1: within every `(action, stringified condition, effect)` group, the
deduplicated output keeps exactly one permission when all members carry the
wildcard resource, keeps exactly the non-wildcard members otherwise, and
never mixes a wildcard with a specific resource. -/
theorem dedup_group_invariant (ps : List IAMPermission)
    (k : String × String × String) (hk : k ∈ ps.map dedupKey) :
    ((∀ p ∈ ps.filter (fun p => decide (dedupKey p = k)), p.resource = "*") →
        ((deduplicatePermissions ps).filter
          (fun p => decide (dedupKey p = k))).length = 1) ∧
    ((∃ p ∈ ps.filter (fun p => decide (dedupKey p = k)), p.resource ≠ "*") →
        ((deduplicatePermissions ps).filter (fun p => decide (dedupKey p = k))).Perm
          ((ps.filter (fun p => decide (dedupKey p = k))).filter
            (fun p => !(decide (p.resource = "*"))))) ∧
    (∀ p ∈ (deduplicatePermissions ps).filter (fun p => decide (dedupKey p = k)),
      ∀ q ∈ (deduplicatePermissions ps).filter (fun p => decide (dedupKey p = k)),
        p.resource = "*" → q.resource = "*") := by
  have hgroup_ne : ps.filter (fun p => decide (dedupKey p = k)) ≠ [] := by
    obtain ⟨p, hp, hpk⟩ := List.mem_map.mp hk
    intro hnil
    have : p ∈ ps.filter (fun p => decide (dedupKey p = k)) :=
      List.mem_filter.mpr ⟨hp, decide_eq_true hpk⟩
    rw [hnil] at this
    exact absurd this (List.not_mem_nil p)
  rw [filter_deduplicate_eq_group ps k, if_pos hk]
  refine ⟨?_, ?_, ?_⟩
  · intro hall
    obtain ⟨p, _, hp⟩ := dedupGroupPerms_all_wildcard hgroup_ne hall
    rw [hp]
    rfl
  · exact dedupGroupPerms_mixed
  · intro p hp q hq hpres
    by_cases hall : ∀ x ∈ ps.filter (fun p => decide (dedupKey p = k)), x.resource = "*"
    · exact hall q (mem_of_mem_dedupGroupPerms hq)
    · push_neg at hall
      have hperm := dedupGroupPerms_mixed hall
      have : p ∈ (ps.filter (fun p => decide (dedupKey p = k))).filter
          (fun p => !(decide (p.resource = "*"))) := hperm.mem_iff.mp hp
      have := (List.mem_filter.mp this).2
      simp [hpres] at this

/-- Closed instance of `dedup_group_invariant` on a concrete mixed group. -/
theorem dedup_group_invariant_witness :
    (("s3:GetObject", "None", "Allow") ∈
        ([⟨"s3:GetObject", "*", none, "Allow"⟩,
          ⟨"s3:GetObject", "arn:aws:s3:::b", none, "Allow"⟩] :
          List IAMPermission).map dedupKey) ∧
    (((∀ p ∈ ([⟨"s3:GetObject", "*", none, "Allow"⟩,
          ⟨"s3:GetObject", "arn:aws:s3:::b", none, "Allow"⟩] :
          List IAMPermission).filter
            (fun p => decide (dedupKey p = ("s3:GetObject", "None", "Allow"))),
        p.resource = "*") →
        ((deduplicatePermissions
            [⟨"s3:GetObject", "*", none, "Allow"⟩,
             ⟨"s3:GetObject", "arn:aws:s3:::b", none, "Allow"⟩]).filter
          (fun p => decide (dedupKey p = ("s3:GetObject", "None", "Allow")))).length = 1) ∧
    ((∃ p ∈ ([⟨"s3:GetObject", "*", none, "Allow"⟩,
          ⟨"s3:GetObject", "arn:aws:s3:::b", none, "Allow"⟩] :
          List IAMPermission).filter
            (fun p => decide (dedupKey p = ("s3:GetObject", "None", "Allow"))),
        p.resource ≠ "*") →
        ((deduplicatePermissions
            [⟨"s3:GetObject", "*", none, "Allow"⟩,
             ⟨"s3:GetObject", "arn:aws:s3:::b", none, "Allow"⟩]).filter
          (fun p => decide (dedupKey p = ("s3:GetObject", "None", "Allow")))).Perm
          ((([⟨"s3:GetObject", "*", none, "Allow"⟩,
              ⟨"s3:GetObject", "arn:aws:s3:::b", none, "Allow"⟩] :
              List IAMPermission).filter
            (fun p => decide (dedupKey p = ("s3:GetObject", "None", "Allow")))).filter
            (fun p => !(decide (p.resource = "*"))))) ∧
    (∀ p ∈ (deduplicatePermissions
            [⟨"s3:GetObject", "*", none, "Allow"⟩,
             ⟨"s3:GetObject", "arn:aws:s3:::b", none, "Allow"⟩]).filter
          (fun p => decide (dedupKey p = ("s3:GetObject", "None", "Allow"))),
      ∀ q ∈ (deduplicatePermissions
            [⟨"s3:GetObject", "*", none, "Allow"⟩,
             ⟨"s3:GetObject", "arn:aws:s3:::b", none, "Allow"⟩]).filter
          (fun p => decide (dedupKey p = ("s3:GetObject", "None", "Allow"))),
        p.resource = "*" → q.resource = "*")) :=
  ⟨by decide, dedup_group_invariant _ _ (by decide)⟩

theorem mem_of_mem_deduplicate {ps : List IAMPermission} {p : IAMPermission}
    (hp : p ∈ deduplicatePermissions ps) : p ∈ ps := by
  obtain ⟨k, _, hpk⟩ := List.mem_flatMap.mp hp
  exact (List.mem_filter.mp (mem_of_mem_dedupGroupPerms hpk)).1

/-- C9: deduplication invents nothing and keeps at least one permission per
input key. -/
theorem dedup_conservative (ps : List IAMPermission) :
    (∀ p ∈ deduplicatePermissions ps, p ∈ ps) ∧
    (∀ k ∈ ps.map dedupKey, ∃ p ∈ deduplicatePermissions ps, dedupKey p = k) := by
  constructor
  · intro p hp
    exact mem_of_mem_deduplicate hp
  · intro k hk
    have hgroup_ne : ps.filter (fun p => decide (dedupKey p = k)) ≠ [] := by
      obtain ⟨p, hp, hpk⟩ := List.mem_map.mp hk
      intro hnil
      have : p ∈ ps.filter (fun p => decide (dedupKey p = k)) :=
        List.mem_filter.mpr ⟨hp, decide_eq_true hpk⟩
      rw [hnil] at this
      exact absurd this (List.not_mem_nil p)
    obtain ⟨p, hp⟩ := List.exists_mem_of_ne_nil _ (dedupGroupPerms_ne_nil hgroup_ne)
    refine ⟨p, ?_, dedupKey_of_mem_group (mem_of_mem_dedupGroupPerms hp)⟩
    exact List.mem_flatMap.mpr ⟨k, mem_dedupFirst.mpr hk, hp⟩

/-- Closed instance of `dedup_conservative`. -/
theorem dedup_conservative_witness :
    (∀ p ∈ deduplicatePermissions
        [⟨"s3:GetObject", "*", none, "Allow"⟩,
         ⟨"s3:GetObject", "arn:aws:s3:::b", none, "Allow"⟩],
      p ∈ ([⟨"s3:GetObject", "*", none, "Allow"⟩,
            ⟨"s3:GetObject", "arn:aws:s3:::b", none, "Allow"⟩] :
            List IAMPermission)) ∧
    (∀ k ∈ ([⟨"s3:GetObject", "*", none, "Allow"⟩,
            ⟨"s3:GetObject", "arn:aws:s3:::b", none, "Allow"⟩] :
            List IAMPermission).map dedupKey,
      ∃ p ∈ deduplicatePermissions
        [⟨"s3:GetObject", "*", none, "Allow"⟩,
         ⟨"s3:GetObject", "arn:aws:s3:::b", none, "Allow"⟩], dedupKey p = k) :=
  dedup_conservative _

/-! ### Policy assembly theorems -/

theorem forall₂_map_self {α β : Type} {R : β → α → Prop} {f : α → β} :
    ∀ {l : List α}, (∀ a ∈ l, R (f a) a) → List.Forall₂ R (l.map f) l
  | [], _ => List.Forall₂.nil
  | a :: _, h =>
    List.Forall₂.cons (h a (List.mem_cons_self _ _))
      (forall₂_map_self (fun x hx => h x (List.mem_cons_of_mem _ hx)))

/-- What one generated statement owes to its `(resource, effect,
stringified-condition)` group. -/
def stmtRel (qs : List IAMPermission) (st : Statement)
    (k : String × String × String) : Prop :=
  st.resource = k.1 ∧ st.effect = k.2.1 ∧ st.action ≠ [] ∧
  List.Sorted (· ≤ ·) st.action ∧ st.action.Nodup ∧
  ∀ a : String, a ∈ st.action ↔ ∃ p ∈ qs, stmtKey p = k ∧ p.action = a

theorem stmtRel_statementForKey (qs : List IAMPermission)
    (k : String × String × String) (hk : k ∈ qs.map stmtKey) :
    stmtRel qs (statementForKey qs k) k := by
  have hmem : ∀ a : String,
      a ∈ (statementForKey qs k).action ↔ ∃ p ∈ qs, stmtKey p = k ∧ p.action = a := by
    intro a
    show a ∈ sortedUniqueActions
        ((qs.filter (fun p => decide (stmtKey p = k))).map (·.action)) ↔ _
    rw [sortedUniqueActions, List.mem_insertionSort, mem_dedupFirst]
    constructor
    · intro h
      obtain ⟨p, hp, hpa⟩ := List.mem_map.mp h
      have hp' := List.mem_filter.mp hp
      exact ⟨p, hp'.1, of_decide_eq_true hp'.2, hpa⟩
    · rintro ⟨p, hp, hpk, hpa⟩
      exact List.mem_map.mpr ⟨p, List.mem_filter.mpr ⟨hp, decide_eq_true hpk⟩, hpa⟩
  refine ⟨rfl, rfl, ?_, ?_, ?_, hmem⟩
  · obtain ⟨p, hp, hpk⟩ := List.mem_map.mp hk
    intro hnil
    have : p.action ∈ (statementForKey qs k).action :=
      (hmem p.action).mpr ⟨p, hp, hpk, rfl⟩
    rw [hnil] at this
    exact absurd this (List.not_mem_nil _)
  · exact List.sorted_insertionSort _ _
  · exact ((List.perm_insertionSort _ _).nodup_iff).mpr (nodup_dedupFirst _)

/-- C2: the assembled policy document carries the fixed version string and
exactly one statement per distinct `(resource, effect, stringified
condition)` group of the deduplicated permissions, each statement's action
list being the sorted duplicate-free non-empty union of its group's
actions; the empty command batch produces an empty statement list. -/
theorem policy_assembly (ps : List IAMPermission) :
    (generatePolicyDocument (deduplicatePermissions ps)).version = "2012-10-17" ∧
    (dedupFirst ((deduplicatePermissions ps).map stmtKey)).Nodup ∧
    List.Forall₂ (stmtRel (deduplicatePermissions ps))
      (generatePolicyDocument (deduplicatePermissions ps)).statement
      (dedupFirst ((deduplicatePermissions ps).map stmtKey)) ∧
    (∀ (cfg : AnalyzerCfg) (strict incl : Bool),
      (analyzeCommands cfg [] strict incl).policyDocument =
        { version := "2012-10-17", statement := [] }) := by
  refine ⟨rfl, nodup_dedupFirst _, ?_, ?_⟩
  · exact forall₂_map_self (fun k hk =>
      stmtRel_statementForKey _ k (mem_dedupFirst.mp hk))
  · intro cfg strict incl
    cases incl <;> rfl

/-- Closed instance of `policy_assembly` at a one-permission input. -/
theorem policy_assembly_witness :
    (generatePolicyDocument
        (deduplicatePermissions [⟨"s3:GetObject", "*", none, "Allow"⟩])).version =
      "2012-10-17" ∧
    (dedupFirst ((deduplicatePermissions
        [⟨"s3:GetObject", "*", none, "Allow"⟩]).map stmtKey)).Nodup ∧
    List.Forall₂ (stmtRel (deduplicatePermissions
        [⟨"s3:GetObject", "*", none, "Allow"⟩]))
      (generatePolicyDocument
        (deduplicatePermissions [⟨"s3:GetObject", "*", none, "Allow"⟩])).statement
      (dedupFirst ((deduplicatePermissions
        [⟨"s3:GetObject", "*", none, "Allow"⟩]).map stmtKey)) ∧
    (∀ (cfg : AnalyzerCfg) (strict incl : Bool),
      (analyzeCommands cfg [] strict incl).policyDocument =
        { version := "2012-10-17", statement := [] }) :=
  policy_assembly [⟨"s3:GetObject", "*", none, "Allow"⟩]

/-! ### Split/join lemmas for the ARN frame property -/

theorem joinOnChar_cons_ne (sep : Char) (x : List Char) {xs : List (List Char)}
    (h : xs ≠ []) : joinOnChar sep (x :: xs) = x ++ sep :: joinOnChar sep xs := by
  cases xs with
  | nil => exact absurd rfl h
  | cons y ys => rfl

theorem splitOnCharAux_ne_nil (sep : Char) :
    ∀ (s acc : List Char), splitOnCharAux sep s acc ≠ []
  | [], _ => by simp [splitOnCharAux]
  | c :: cs, acc => by
    rw [splitOnCharAux]
    split
    · simp
    · exact splitOnCharAux_ne_nil sep cs (c :: acc)

theorem join_splitOnCharAux (sep : Char) :
    ∀ (s acc : List Char),
      joinOnChar sep (splitOnCharAux sep s acc) = acc.reverse ++ s
  | [], acc => by simp [splitOnCharAux, joinOnChar]
  | c :: cs, acc => by
    rw [splitOnCharAux]
    split
    · rename_i hc
      rw [joinOnChar_cons_ne sep _ (splitOnCharAux_ne_nil sep cs []),
        join_splitOnCharAux sep cs []]
      simp [hc]
    · rename_i hc
      rw [join_splitOnCharAux sep cs (c :: acc)]
      simp

theorem join_splitOnChar (sep : Char) (s : List Char) :
    joinOnChar sep (splitOnChar sep s) = s := by
  simpa using join_splitOnCharAux sep s []

theorem no_sep_of_mem_splitOnCharAux (sep : Char) :
    ∀ (s acc : List Char), sep ∉ acc →
      ∀ part ∈ splitOnCharAux sep s acc, sep ∉ part
  | [], acc, hacc => by
    intro part hpart
    rw [splitOnCharAux] at hpart
    rcases List.mem_singleton.mp hpart with rfl
    simpa using hacc
  | c :: cs, acc, hacc => by
    intro part hpart
    rw [splitOnCharAux] at hpart
    split at hpart
    · rename_i hc
      rcases List.mem_cons.mp hpart with rfl | hpart
      · simpa using hacc
      · exact no_sep_of_mem_splitOnCharAux sep cs [] (List.not_mem_nil sep) part hpart
    · rename_i hc
      refine no_sep_of_mem_splitOnCharAux sep cs (c :: acc) ?_ part hpart
      intro hmem
      rcases List.mem_cons.mp hmem with h | h
      · exact hc h.symm
      · exact hacc h

theorem no_sep_of_mem_splitOnChar (sep : Char) (s : List Char) :
    ∀ part ∈ splitOnChar sep s, sep ∉ part :=
  no_sep_of_mem_splitOnCharAux sep s [] (List.not_mem_nil sep)

theorem splitOnCharAux_no_sep (sep : Char) :
    ∀ (x acc : List Char), sep ∉ x → splitOnCharAux sep x acc = [acc.reverse ++ x]
  | [], acc, _ => by simp [splitOnCharAux]
  | c :: cs, acc, h => by
    rw [splitOnCharAux, if_neg (fun hc => h (by rw [← hc]; exact List.mem_cons_self _ _)),
      splitOnCharAux_no_sep sep cs (c :: acc) (fun hc => h (List.mem_cons_of_mem _ hc))]
    simp

theorem splitOnCharAux_sep_append (sep : Char) :
    ∀ (x rest acc : List Char), sep ∉ x →
      splitOnCharAux sep (x ++ sep :: rest) acc =
        (acc.reverse ++ x) :: splitOnCharAux sep rest []
  | [], rest, acc, _ => by rw [List.nil_append, splitOnCharAux, if_pos rfl]; simp
  | c :: cs, rest, acc, h => by
    rw [List.cons_append, splitOnCharAux,
      if_neg (fun hc => h (by rw [← hc]; exact List.mem_cons_self _ _)),
      splitOnCharAux_sep_append sep cs rest (c :: acc)
        (fun hc => h (List.mem_cons_of_mem _ hc))]
    simp

theorem splitOnChar_join (sep : Char) :
    ∀ (parts : List (List Char)), parts ≠ [] →
      (∀ part ∈ parts, sep ∉ part) →
      splitOnChar sep (joinOnChar sep parts) = parts
  | [], h, _ => absurd rfl h
  | [x], _, hfree => by
    rw [joinOnChar, splitOnChar,
      splitOnCharAux_no_sep sep x [] (hfree x (List.mem_cons_self _ _))]
    simp
  | x :: y :: ys, _, hfree => by
    rw [joinOnChar_cons_ne sep x (by simp), splitOnChar,
      splitOnCharAux_sep_append sep x (joinOnChar sep (y :: ys)) []
        (hfree x (List.mem_cons_self _ _))]
    have := splitOnChar_join sep (y :: ys) (by simp)
      (fun part hpart => hfree part (List.mem_cons_of_mem _ hpart))
    rw [splitOnChar] at this
    rw [this]
    simp

/-- C10: `_enhance_single_arn` leaves any string unchanged unless it starts
with `arn:aws:` and splits into at least six colon segments; a rewrite can
only touch segment 3 (region, only when it was `"*"` and a region was
supplied) and segment 4 (account, only when it was `"*"` and an account was
supplied), all other segments surviving verbatim. -/
theorem enhance_single_arn_frame (arn : String) (accountId region : Option String)
    (hacct : ∀ s, accountId = some s → ':' ∉ s.data)
    (hreg : ∀ s, region = some s → ':' ∉ s.data) :
    (¬ ("arn:aws:".data.isPrefixOf arn.data = true) →
        enhanceSingleArn arn accountId region = arn) ∧
    ((splitOnChar ':' arn.data).length < 6 →
        enhanceSingleArn arn accountId region = arn) ∧
    ("arn:aws:".data.isPrefixOf arn.data = true →
      6 ≤ (splitOnChar ':' arn.data).length →
      (splitOnChar ':' (enhanceSingleArn arn accountId region).data).length =
          (splitOnChar ':' arn.data).length ∧
      (∀ i : Nat, i ≠ 3 → i ≠ 4 →
        (splitOnChar ':' (enhanceSingleArn arn accountId region).data)[i]? =
          (splitOnChar ':' arn.data)[i]?) ∧
      (¬ (truthyOpt accountId = true ∧
            (splitOnChar ':' arn.data).getD 4 [] = "*".data) →
        (splitOnChar ':' (enhanceSingleArn arn accountId region).data)[4]? =
          (splitOnChar ':' arn.data)[4]?) ∧
      (truthyOpt accountId = true →
        (splitOnChar ':' arn.data).getD 4 [] = "*".data →
        (splitOnChar ':' (enhanceSingleArn arn accountId region).data)[4]? =
          some (accountId.getD "").data) ∧
      (¬ (truthyOpt region = true ∧
            (splitOnChar ':' arn.data).getD 3 [] = "*".data) →
        (splitOnChar ':' (enhanceSingleArn arn accountId region).data)[3]? =
          (splitOnChar ':' arn.data)[3]?) ∧
      (truthyOpt region = true →
        (splitOnChar ':' arn.data).getD 3 [] = "*".data →
        (splitOnChar ':' (enhanceSingleArn arn accountId region).data)[3]? =
          some (region.getD "").data)) := by
  by_cases hpre : "arn:aws:".data.isPrefixOf arn.data = true
  case neg =>
    have hBool : "arn:aws:".data.isPrefixOf arn.data = false :=
      Bool.eq_false_iff.mpr hpre
    refine ⟨fun _ => ?_, fun _ => ?_, fun hp _ => absurd hp hpre⟩ <;>
      simp [enhanceSingleArn, hBool]
  case pos =>
    by_cases hlen : 6 ≤ (splitOnChar ':' arn.data).length
    case neg =>
      refine ⟨fun hp => absurd hpre hp, fun _ => ?_, fun _ hl => absurd hl hlen⟩
      simp [enhanceSingleArn, hpre, hlen]
    case pos =>
      refine ⟨fun hp => absurd hpre hp,
        fun hl => absurd hlen (Nat.not_le.mpr hl), fun _ _ => ?_⟩
      set P := splitOnChar ':' arn.data with hP
      set cond4 := truthyOpt accountId && decide (P.getD 4 [] = "*".data) with hc4
      set P1 := if cond4 then P.set 4 (accountId.getD "").data else P with hP1
      have hP1len : P1.length = P.length := by
        rw [hP1]
        split
        · exact List.length_set ..
        · rfl
      have hP1get3 : P1.getD 3 [] = P.getD 3 [] := by
        rw [hP1]
        split
        · rw [List.getD_eq_getElem?_getD, List.getElem?_set_ne (by omega),
            ← List.getD_eq_getElem?_getD]
        · rfl
      set cond3 := truthyOpt region && decide (P1.getD 3 [] = "*".data) with hc3
      set P2 := if cond3 then P1.set 3 (region.getD "").data else P1 with hP2
      have hP2len : P2.length = P.length := by
        rw [hP2]
        split
        · rw [List.length_set, hP1len]
        · exact hP1len
      have henh : enhanceSingleArn arn accountId region = ⟨joinOnChar ':' P2⟩ := by
        rw [enhanceSingleArn, if_neg (by simp [hpre]), ← hP]
        rw [if_pos hlen]
      have hfree : ∀ part ∈ P2, ':' ∉ part := by
        intro part hpart
        have hfromP : ∀ q ∈ P, ':' ∉ q := no_sep_of_mem_splitOnChar ':' arn.data
        have hmemP1 : ∀ q ∈ P1, ':' ∉ q := by
          intro q hq
          rw [hP1] at hq
          split at hq
          · rcases List.mem_or_eq_of_mem_set hq with h | rfl
            · exact hfromP q h
            · rename_i hcond
              rw [hc4] at hcond
              rw [Bool.and_eq_true] at hcond
              have htru : truthyOpt accountId = true := hcond.1
              cases haccid : accountId with
              | none => rw [haccid] at htru; simp [truthyOpt] at htru
              | some s =>
                have := hacct s haccid
                simpa [haccid] using this
          · exact hfromP q hq
        rw [hP2] at hpart
        split at hpart
        · rcases List.mem_or_eq_of_mem_set hpart with h | rfl
          · exact hmemP1 part h
          · rename_i hcond
            rw [hc3] at hcond
            rw [Bool.and_eq_true] at hcond
            have htru : truthyOpt region = true := hcond.1
            cases hregid : region with
            | none => rw [hregid] at htru; simp [truthyOpt] at htru
            | some s =>
              have := hreg s hregid
              simpa [hregid] using this
        · exact hmemP1 part hpart
      have hP2ne : P2 ≠ [] := by
        intro h
        have h0 : P.length = 0 := by rw [← hP2len, h]; rfl
        omega
      have hsplit : splitOnChar ':' (enhanceSingleArn arn accountId region).data = P2 := by
        rw [henh]
        exact splitOnChar_join ':' P2 hP2ne hfree
      rw [hsplit]
      have hget4 : ∀ {b : List Char}, (P.set 3 b)[4]? = P[4]? :=
        fun {b} => List.getElem?_set_ne (by omega)
      refine ⟨hP2len, ?_, ?_, ?_, ?_, ?_⟩
      · intro i h3 h4
        rw [hP2]
        split
        · rw [List.getElem?_set_ne (fun h => h3 h.symm), hP1]
          split
          · rw [List.getElem?_set_ne (fun h => h4 h.symm)]
          · rfl
        · rw [hP1]
          split
          · rw [List.getElem?_set_ne (fun h => h4 h.symm)]
          · rfl
      · intro hno
        have hc4false : cond4 = false := by
          rw [hc4]
          by_cases h : truthyOpt accountId = true
          · by_cases h2 : P.getD 4 [] = "*".data
            · exact absurd ⟨h, h2⟩ hno
            · rw [decide_eq_false h2]
              simp
          · rw [Bool.eq_false_iff.mpr h]
            simp
        rw [hP2]
        split
        · rw [List.getElem?_set_ne (by omega), hP1, hc4false]
          simp
        · rw [hP1, hc4false]
          simp
      · intro htru hstar
        have hc4true : cond4 = true := by
          rw [hc4, htru, decide_eq_true hstar]
          rfl
        have h4 : P1[4]? = some (accountId.getD "").data := by
          rw [hP1, hc4true, if_pos rfl]
          exact List.getElem?_set_self (by omega)
        rw [hP2]
        split
        · rw [List.getElem?_set_ne (by omega)]
          exact h4
        · exact h4
      · intro hno
        have hc3false : cond3 = false := by
          rw [hc3]
          by_cases h : truthyOpt region = true
          · by_cases h2 : P1.getD 3 [] = "*".data
            · rw [hP1get3] at h2
              exact absurd ⟨h, h2⟩ hno
            · rw [decide_eq_false h2]
              simp
          · rw [Bool.eq_false_iff.mpr h]
            simp
        rw [hP2, hc3false]
        simp only [Bool.false_eq_true, if_false]
        rw [hP1]
        split
        · rw [List.getElem?_set_ne (by omega)]
        · rfl
      · intro htru hstar
        have hc3true : cond3 = true := by
          rw [hc3, htru, hP1get3, decide_eq_true hstar]
          rfl
        rw [hP2, hc3true, if_pos rfl]
        exact List.getElem?_set_self (by rw [hP1len]; omega)

/-- Closed instance of `enhance_single_arn_frame` at a concrete ARN. -/
theorem enhance_single_arn_frame_witness :
    (¬ ("arn:aws:".data.isPrefixOf "arn:aws:ec2:*:*:instance/i-0abc".data = true) →
        enhanceSingleArn "arn:aws:ec2:*:*:instance/i-0abc"
          (some "111122223333") (some "us-east-1") = "arn:aws:ec2:*:*:instance/i-0abc") ∧
    ((splitOnChar ':' "arn:aws:ec2:*:*:instance/i-0abc".data).length < 6 →
        enhanceSingleArn "arn:aws:ec2:*:*:instance/i-0abc"
          (some "111122223333") (some "us-east-1") = "arn:aws:ec2:*:*:instance/i-0abc") ∧
    ("arn:aws:".data.isPrefixOf "arn:aws:ec2:*:*:instance/i-0abc".data = true →
      6 ≤ (splitOnChar ':' "arn:aws:ec2:*:*:instance/i-0abc".data).length →
      (splitOnChar ':' (enhanceSingleArn "arn:aws:ec2:*:*:instance/i-0abc"
          (some "111122223333") (some "us-east-1")).data).length =
          (splitOnChar ':' "arn:aws:ec2:*:*:instance/i-0abc".data).length ∧
      (∀ i : Nat, i ≠ 3 → i ≠ 4 →
        (splitOnChar ':' (enhanceSingleArn "arn:aws:ec2:*:*:instance/i-0abc"
            (some "111122223333") (some "us-east-1")).data)[i]? =
          (splitOnChar ':' "arn:aws:ec2:*:*:instance/i-0abc".data)[i]?) ∧
      (¬ (truthyOpt (some "111122223333") = true ∧
            (splitOnChar ':' "arn:aws:ec2:*:*:instance/i-0abc".data).getD 4 [] = "*".data) →
        (splitOnChar ':' (enhanceSingleArn "arn:aws:ec2:*:*:instance/i-0abc"
            (some "111122223333") (some "us-east-1")).data)[4]? =
          (splitOnChar ':' "arn:aws:ec2:*:*:instance/i-0abc".data)[4]?) ∧
      (truthyOpt (some "111122223333") = true →
        (splitOnChar ':' "arn:aws:ec2:*:*:instance/i-0abc".data).getD 4 [] = "*".data →
        (splitOnChar ':' (enhanceSingleArn "arn:aws:ec2:*:*:instance/i-0abc"
            (some "111122223333") (some "us-east-1")).data)[4]? =
          some ((some "111122223333").getD "").data) ∧
      (¬ (truthyOpt (some "us-east-1") = true ∧
            (splitOnChar ':' "arn:aws:ec2:*:*:instance/i-0abc".data).getD 3 [] = "*".data) →
        (splitOnChar ':' (enhanceSingleArn "arn:aws:ec2:*:*:instance/i-0abc"
            (some "111122223333") (some "us-east-1")).data)[3]? =
          (splitOnChar ':' "arn:aws:ec2:*:*:instance/i-0abc".data)[3]?) ∧
      (truthyOpt (some "us-east-1") = true →
        (splitOnChar ':' "arn:aws:ec2:*:*:instance/i-0abc".data).getD 3 [] = "*".data →
        (splitOnChar ':' (enhanceSingleArn "arn:aws:ec2:*:*:instance/i-0abc"
            (some "111122223333") (some "us-east-1")).data)[3]? =
          some ((some "us-east-1").getD "").data)) :=
  enhance_single_arn_frame "arn:aws:ec2:*:*:instance/i-0abc"
    (some "111122223333") (some "us-east-1")
    (by intro s hs; cases hs; decide) (by intro s hs; cases hs; decide)

/-! ### Parameter tokenisation and the concrete analyzer scenarios -/

/-- C7: a `--name=value` token is captured by the long-flag branch before the
equals-splitting branch can run, so `--output=json` is stored as the boolean
flag `output=json` and no parameter named `output` exists. -/
theorem parse_parameters_equals_form :
    parseParameters "--output=json" =
      [("output=json", PVal.t), ("--output=json", PVal.t)] ∧
    assocGet (parseParameters "--output=json") "output" = none ∧
    assocGet (parseParameters "--output=json") "output=json" = some PVal.t := by
  refine ⟨?_, ?_, ?_⟩ <;> decide

/-- The required permissions `analyze_commands` derives for the batch
`["aws s3 cp file.txt s3://bucket-a/x", "aws s3 cp file.txt s3://bucket-b/y"]`
in the default configuration with no scraper, with each command's
`resource_arns` set enumerated in the given order: both loop-body permission
lists, then the read-only table for the batch's one service `s3`, then
deduplication — exactly the assembly `analyze_commands` performs for this
batch. -/
def cpBatchPerms (arnsA arnsB : List String) : List IAMPermission :=
  deduplicatePermissions
    (cmdPermsFromParsed ⟨iamDB, fun _ _ => [], fun _ _ => [], false⟩ false
        ⟨"s3", "cp",
          [("arg_0", PVal.s "file.txt"), ("file.txt", PVal.t),
           ("arg_1", PVal.s "s3://bucket-a/x"), ("s3://bucket-a/x", PVal.t)],
          arnsA, "aws s3 cp file.txt s3://bucket-a/x"⟩ ++
     cmdPermsFromParsed ⟨iamDB, fun _ _ => [], fun _ _ => [], false⟩ false
        ⟨"s3", "cp",
          [("arg_0", PVal.s "file.txt"), ("file.txt", PVal.t),
           ("arg_1", PVal.s "s3://bucket-b/y"), ("s3://bucket-b/y", PVal.t)],
          arnsB, "aws s3 cp file.txt s3://bucket-b/y"⟩ ++
     getReadOnlyPermissions ["s3"])

/-- A duplicate-free enumeration of a two-element set is one of the two
orders. -/
theorem setEnum_pair {a b : String} {out : List String} (hne : a ≠ b)
    (h : setEnum [a, b] out = true) : out = [a, b] ∨ out = [b, a] := by
  unfold setEnum at h
  rw [Bool.and_eq_true, Bool.and_eq_true] at h
  obtain ⟨⟨hnd, hsrc⟩, hout⟩ := h
  have hnd' : out.Nodup := of_decide_eq_true hnd
  have ha : a ∈ out :=
    of_decide_eq_true (List.all_eq_true.mp hsrc a (by simp))
  have hb : b ∈ out :=
    of_decide_eq_true (List.all_eq_true.mp hsrc b (by simp))
  have hsub : ∀ x ∈ out, x = a ∨ x = b := by
    intro x hx
    have hx2 : x ∈ [a, b] :=
      of_decide_eq_true (List.all_eq_true.mp hout x hx)
    simpa using hx2
  rcases out with _ | ⟨x, _ | ⟨y, rest⟩⟩
  · exact absurd ha (List.not_mem_nil a)
  · have hax : a = x := List.mem_singleton.mp ha
    have hbx : b = x := List.mem_singleton.mp hb
    exact absurd (hax.trans hbx.symm) hne
  · have hxy : x ≠ y := by
      intro heq
      exact (List.nodup_cons.mp hnd').1 (heq ▸ List.mem_cons_self y rest)
    have hrest : rest = [] := by
      rcases rest with _ | ⟨z, rest2⟩
      · rfl
      · exfalso
        have hnx : x ∉ y :: z :: rest2 := (List.nodup_cons.mp hnd').1
        have hny : y ∉ z :: rest2 :=
          (List.nodup_cons.mp (List.nodup_cons.mp hnd').2).1
        have hzx : z ≠ x := by
          intro heq
          exact hnx (by
            rw [← heq]
            exact List.mem_cons_of_mem y (List.mem_cons_self z rest2))
        have hzy : z ≠ y := by
          intro heq
          exact hny (by rw [← heq]; exact List.mem_cons_self z rest2)
        have hxab := hsub x (List.mem_cons_self x (y :: z :: rest2))
        have hyab := hsub y
          (List.mem_cons_of_mem x (List.mem_cons_self y (z :: rest2)))
        have hzab := hsub z (List.mem_cons_of_mem x
          (List.mem_cons_of_mem y (List.mem_cons_self z rest2)))
        rcases hxab with hx1 | hx1 <;> rcases hyab with hy1 | hy1 <;>
          rcases hzab with hz1 | hz1 <;>
          first
            | exact hxy (hx1.trans hy1.symm)
            | exact hzx (hz1.trans hx1.symm)
            | exact hzy (hz1.trans hy1.symm)
    subst hrest
    have hxab := hsub x (List.mem_cons_self x [y])
    have hyab := hsub y (List.mem_cons_of_mem x (List.mem_cons_self y []))
    rcases hxab with hx1 | hx1 <;> rcases hyab with hy1 | hy1
    · exact absurd (hx1.trans hy1.symm) hxy
    · exact Or.inl (by rw [hx1, hy1])
    · exact Or.inr (by rw [hx1, hy1])
    · exact absurd (hx1.trans hy1.symm) hxy

/-- C3 counterexample: `_extract_arns` collects the bucket ARN and the object
ARN for the first copy command and returns `list(set(...))` of them; the
object-ARN-first order is an admissible CPython set enumeration (the
embedding's `parseCommand` merely fixes the other one), and under it the
batch derives NO `s3:ListBucket` permission on the bare bucket ARN
`arn:aws:s3:::bucket-a`: `_select_appropriate_resource_arn` hands
`s3:ListBucket` the object ARN `arn:aws:s3:::bucket-a/x`, and the
enhancement's containment test (`bucket_arn in str(perm.resource)`) then
suppresses the appended bare-bucket `ListBucket`. -/
theorem multi_bucket_cp_counterexample :
    parseCommand "aws s3 cp file.txt s3://bucket-a/x" =
      .ok ⟨"s3", "cp",
        [("arg_0", PVal.s "file.txt"), ("file.txt", PVal.t),
         ("arg_1", PVal.s "s3://bucket-a/x"), ("s3://bucket-a/x", PVal.t)],
        ["arn:aws:s3:::bucket-a", "arn:aws:s3:::bucket-a/x"],
        "aws s3 cp file.txt s3://bucket-a/x"⟩ ∧
    setEnum ["arn:aws:s3:::bucket-a", "arn:aws:s3:::bucket-a/x"]
      ["arn:aws:s3:::bucket-a/x", "arn:aws:s3:::bucket-a"] = true ∧
    (∀ p ∈ cpBatchPerms ["arn:aws:s3:::bucket-a/x", "arn:aws:s3:::bucket-a"]
        ["arn:aws:s3:::bucket-b", "arn:aws:s3:::bucket-b/y"],
      ¬(p.action = "s3:ListBucket" ∧ p.resource = "arn:aws:s3:::bucket-a")) :=
  ⟨rfl, by decide, by decide⟩

/-- C3 (amended): for every admissible set enumeration of each copy command's
extracted ARNs, batch-analyzing the two copy commands grants `s3:PutObject`
and `s3:GetObject` on the `\x7bbucket-arn\x7d/*` pattern of both referenced
buckets, and for each bucket an `s3:ListBucket` permission whose resource
contains that bucket's bare ARN (the bare ARN itself under the bucket-first
enumeration, the object ARN otherwise); under the embedding's
first-occurrence enumeration the assembled batch coincides with
`analyzeCommands` on the two commands. -/
theorem multi_bucket_cp_enhancement_amended (arnsA arnsB : List String)
    (hA : setEnum (findAllArns "aws s3 cp file.txt s3://bucket-a/x".data ++
        generateArnsFromIdentifiers "aws s3 cp file.txt s3://bucket-a/x".data)
        arnsA = true)
    (hB : setEnum (findAllArns "aws s3 cp file.txt s3://bucket-b/y".data ++
        generateArnsFromIdentifiers "aws s3 cp file.txt s3://bucket-b/y".data)
        arnsB = true) :
    cpBatchPerms ["arn:aws:s3:::bucket-a", "arn:aws:s3:::bucket-a/x"]
        ["arn:aws:s3:::bucket-b", "arn:aws:s3:::bucket-b/y"] =
      (analyzeCommands ⟨iamDB, fun _ _ => [], fun _ _ => [], false⟩
        ["aws s3 cp file.txt s3://bucket-a/x", "aws s3 cp file.txt s3://bucket-b/y"]
        false true).requiredPermissions ∧
    (⟨"s3:PutObject", "arn:aws:s3:::bucket-a/*", none, "Allow"⟩ : IAMPermission) ∈
      cpBatchPerms arnsA arnsB ∧
    (⟨"s3:GetObject", "arn:aws:s3:::bucket-a/*", none, "Allow"⟩ : IAMPermission) ∈
      cpBatchPerms arnsA arnsB ∧
    (⟨"s3:PutObject", "arn:aws:s3:::bucket-b/*", none, "Allow"⟩ : IAMPermission) ∈
      cpBatchPerms arnsA arnsB ∧
    (⟨"s3:GetObject", "arn:aws:s3:::bucket-b/*", none, "Allow"⟩ : IAMPermission) ∈
      cpBatchPerms arnsA arnsB ∧
    (∃ p ∈ cpBatchPerms arnsA arnsB, p.action = "s3:ListBucket" ∧
      containsSub p.resource.data "arn:aws:s3:::bucket-a".data = true) ∧
    (∃ p ∈ cpBatchPerms arnsA arnsB, p.action = "s3:ListBucket" ∧
      containsSub p.resource.data "arn:aws:s3:::bucket-b".data = true) := by
  have hsA : (findAllArns "aws s3 cp file.txt s3://bucket-a/x".data ++
      generateArnsFromIdentifiers "aws s3 cp file.txt s3://bucket-a/x".data) =
      ["arn:aws:s3:::bucket-a", "arn:aws:s3:::bucket-a/x"] := by decide
  have hsB : (findAllArns "aws s3 cp file.txt s3://bucket-b/y".data ++
      generateArnsFromIdentifiers "aws s3 cp file.txt s3://bucket-b/y".data) =
      ["arn:aws:s3:::bucket-b", "arn:aws:s3:::bucket-b/y"] := by decide
  rw [hsA] at hA
  rw [hsB] at hB
  rcases setEnum_pair (by decide) hA with rfl | rfl <;>
    rcases setEnum_pair (by decide) hB with rfl | rfl <;>
    exact ⟨by decide, by decide, by decide, by decide, by decide,
      by decide, by decide⟩

theorem multi_bucket_cp_enhancement_amended_witness :
    ((⟨"s3:PutObject", "arn:aws:s3:::bucket-a/*", none, "Allow"⟩ : IAMPermission) ∈
      cpBatchPerms ["arn:aws:s3:::bucket-a/x", "arn:aws:s3:::bucket-a"]
        ["arn:aws:s3:::bucket-b/y", "arn:aws:s3:::bucket-b"]) ∧
    (∃ p ∈ cpBatchPerms ["arn:aws:s3:::bucket-a/x", "arn:aws:s3:::bucket-a"]
        ["arn:aws:s3:::bucket-b/y", "arn:aws:s3:::bucket-b"],
      p.action = "s3:ListBucket" ∧
      containsSub p.resource.data "arn:aws:s3:::bucket-a".data = true) :=
  ⟨(multi_bucket_cp_enhancement_amended
      ["arn:aws:s3:::bucket-a/x", "arn:aws:s3:::bucket-a"]
      ["arn:aws:s3:::bucket-b/y", "arn:aws:s3:::bucket-b"]
      (by decide) (by decide)).2.1,
   (multi_bucket_cp_enhancement_amended
      ["arn:aws:s3:::bucket-a/x", "arn:aws:s3:::bucket-a"]
      ["arn:aws:s3:::bucket-b/y", "arn:aws:s3:::bucket-b"]
      (by decide) (by decide)).2.2.2.2.2.1⟩

/-! ### Unknown-service fallback (C4) -/

/-- C4 counterexample: in the default (non-debug) configuration with no
scraper, an unknown-service command yields the fallback permission and the
missing-commands entry but NO warning. -/
theorem unknown_service_fallback_counterexample :
    (analyzeCommands ⟨iamDB, fun _ _ => [], fun _ _ => [], false⟩
        ["aws frobsvc do-thing"] false true).missingCommands =
      ["aws frobsvc do-thing"] ∧
    (analyzeCommands ⟨iamDB, fun _ _ => [], fun _ _ => [], false⟩
        ["aws frobsvc do-thing"] false true).requiredPermissions =
      [⟨"frobsvc:DoThing", "*", none, "Allow"⟩] ∧
    (analyzeCommands ⟨iamDB, fun _ _ => [], fun _ _ => [], false⟩
        ["aws frobsvc do-thing"] false true).warnings = [] := by
  refine ⟨?_, ?_, ?_⟩ <;> decide

theorem readOnly_perm_shape (svs : List String) :
    ∀ p ∈ getReadOnlyPermissions svs,
      p.resource = "*" ∧ p.condition = none ∧ p.effect = "Allow" := by
  intro p hp
  obtain ⟨sv, _, hpin⟩ := List.mem_flatMap.mp hp
  revert hpin
  cases assocGet readOnlyActionsTable sv with
  | none => intro h; cases h
  | some acts =>
    intro hpin
    obtain ⟨a, _, rfl⟩ := List.mem_map.mp hpin
    exact ⟨rfl, rfl, rfl⟩

/-- Deduplicating a list of all-wildcard, condition-free `Allow` permissions
keeps exactly one permission per action. -/
theorem dedup_wildcard_action_count (ps : List IAMPermission) (a : String)
    (hwild : ∀ p ∈ ps, p.resource = "*" ∧ p.condition = none ∧ p.effect = "Allow")
    (hmem : ∃ p ∈ ps, p.action = a) :
    ((deduplicatePermissions ps).filter
        (fun q => decide (q.action = a))).length = 1 := by
  have hkey : ∀ p ∈ ps, dedupKey p = (p.action, "None", "Allow") := by
    intro p hp
    obtain ⟨_, hc, he⟩ := hwild p hp
    unfold dedupKey
    rw [hc, he]
    rfl
  have hcongr :
      (deduplicatePermissions ps).filter (fun q => decide (q.action = a)) =
        (deduplicatePermissions ps).filter
          (fun q => decide (dedupKey q = (a, "None", "Allow"))) := by
    refine List.filter_congr (fun q hq => ?_)
    have hqps : q ∈ ps := mem_of_mem_deduplicate hq
    rw [hkey q hqps]
    by_cases h : q.action = a
    · simp [h]
    · simp [h, fun hcontra : (q.action, "None", "Allow") = (a, "None", "Allow") =>
        h (congrArg (fun t => t.1) hcontra)]
  obtain ⟨p0, hp0, hp0a⟩ := hmem
  have hkmem : (a, "None", "Allow") ∈ ps.map dedupKey :=
    List.mem_map.mpr ⟨p0, hp0, by rw [hkey p0 hp0, hp0a]⟩
  have hgroup_ne :
      ps.filter (fun p => decide (dedupKey p = (a, "None", "Allow"))) ≠ [] := by
    intro hnil
    have : p0 ∈ ps.filter (fun p => decide (dedupKey p = (a, "None", "Allow"))) :=
      List.mem_filter.mpr ⟨hp0, decide_eq_true (by rw [hkey p0 hp0, hp0a])⟩
    rw [hnil] at this
    exact absurd this (List.not_mem_nil p0)
  have hallw : ∀ p ∈ ps.filter (fun p => decide (dedupKey p = (a, "None", "Allow"))),
      p.resource = "*" := by
    intro p hp
    exact (hwild p (List.mem_filter.mp hp).1).1
  obtain ⟨p1, _, hres⟩ := dedupGroupPerms_all_wildcard hgroup_ne hallw
  rw [hcongr, filter_deduplicate_eq_group, if_pos hkmem, hres]
  rfl

/-- C4 (amended): for a parsed command whose service is outside the catalog
and for which both scraper hooks yield nothing, the singleton batch records
the command as missing, keeps exactly one permission carrying the fallback
action and it is wildcard-scoped — and a warning is emitted exactly when
debug mode is on (none in the default configuration). -/
theorem unknown_service_fallback (cfg : AnalyzerCfg) (c : String)
    (pc : ParsedCommand) (strict incl : Bool)
    (hp : parseCommand c = .ok pc)
    (hdb : assocGet cfg.db (strLower pc.service) = none)
    (hsup : (getSupportedServices cfg.db).contains pc.service = false)
    (hs1 : cfg.scrKnown pc.service pc.action = [])
    (hs2 : cfg.scrUnknown pc.service pc.action = []) :
    (analyzeCommands cfg [c] strict incl).missingCommands = [c] ∧
    ((analyzeCommands cfg [c] strict incl).requiredPermissions.filter
        (fun q => decide (q.action = (generateFallbackPermission pc).action))).length
      = 1 ∧
    (∀ q ∈ (analyzeCommands cfg [c] strict incl).requiredPermissions,
      q.action = (generateFallbackPermission pc).action → q.resource = "*") ∧
    (analyzeCommands cfg [c] strict incl).warnings =
      (if cfg.debugMode then
        ["Unknown command \x27" ++ c ++ "\x27 - generated basic fallback: " ++
          (generateFallbackPermission pc).action]
      else []) := by
  have hlookup : getPermissionsObject cfg.db pc.service pc.action = none := by
    unfold getPermissionsObject
    rw [hdb]
  have hperm : stepPermissions cfg strict c = [generateFallbackPermission pc] := by
    simp [stepPermissions, cmdPermsFromParsed, hp, hlookup, hsup, hs1, hs2]
  have hmiss : stepMissing cfg c = [c] := by
    simp [stepMissing, hp, hlookup]
  have hwarn : stepWarnings cfg c =
      (if cfg.debugMode then
        ["Unknown command \x27" ++ c ++ "\x27 - generated basic fallback: " ++
          (generateFallbackPermission pc).action]
      else []) := by
    have hnotmem : pc.service ∉ getSupportedServices cfg.db := by simpa using hsup
    simp [stepWarnings, hp, hlookup, hsup, hs1, hs2]
    intro h
    exact absurd h hnotmem
  have hsvc : stepService c = some pc.service := by
    simp [stepService, hp]
  have hall : (analyzeCommands cfg [c] strict incl).requiredPermissions =
      deduplicatePermissions
        (if incl then
          [generateFallbackPermission pc] ++ getReadOnlyPermissions [pc.service]
        else [generateFallbackPermission pc]) := by
    unfold analyzeCommands
    simp only [List.foldl_cons, List.foldl_nil, stepCommand, hperm, hmiss, hwarn,
      hsvc, List.nil_append]
    rw [show insertIfAbsent pc.service [] = [pc.service] by rfl]
  have hshape :
      ∀ p ∈ (if incl then
          [generateFallbackPermission pc] ++ getReadOnlyPermissions [pc.service]
        else [generateFallbackPermission pc]),
        p.resource = "*" ∧ p.condition = none ∧ p.effect = "Allow" := by
    intro p hp'
    revert hp'
    split
    · intro hp'
      rcases List.mem_append.mp hp' with h | h
      · rcases List.mem_singleton.mp h with rfl
        exact ⟨rfl, rfl, rfl⟩
      · exact readOnly_perm_shape _ p h
    · intro hp'
      rcases List.mem_singleton.mp hp' with rfl
      exact ⟨rfl, rfl, rfl⟩
  have hfmem : ∃ p ∈ (if incl then
      [generateFallbackPermission pc] ++ getReadOnlyPermissions [pc.service]
    else [generateFallbackPermission pc]),
      p.action = (generateFallbackPermission pc).action := by
    refine ⟨generateFallbackPermission pc, ?_, rfl⟩
    split
    · exact List.mem_append.mpr (Or.inl (List.mem_singleton.mpr rfl))
    · exact List.mem_singleton.mpr rfl
  refine ⟨?_, ?_, ?_, ?_⟩
  · unfold analyzeCommands
    simp only [List.foldl_cons, List.foldl_nil, stepCommand, hmiss, List.nil_append]
  · rw [hall]
    exact dedup_wildcard_action_count _ _ hshape hfmem
  · intro q hq _
    rw [hall] at hq
    exact (hshape q (mem_of_mem_deduplicate hq)).1
  · unfold analyzeCommands
    simp only [List.foldl_cons, List.foldl_nil, stepCommand, hwarn, List.nil_append]

/-- Closed instance of `unknown_service_fallback` (debug mode on). -/
theorem unknown_service_fallback_witness :
    parseCommand "aws frobsvc do-thing" =
      .ok ⟨"frobsvc", "do-thing", [], [], "aws frobsvc do-thing"⟩ ∧
    ((analyzeCommands ⟨iamDB, fun _ _ => [], fun _ _ => [], true⟩
        ["aws frobsvc do-thing"] false true).missingCommands =
      ["aws frobsvc do-thing"] ∧
    ((analyzeCommands ⟨iamDB, fun _ _ => [], fun _ _ => [], true⟩
        ["aws frobsvc do-thing"] false true).requiredPermissions.filter
        (fun q => decide (q.action =
          (generateFallbackPermission
            ⟨"frobsvc", "do-thing", [], [], "aws frobsvc do-thing"⟩).action))).length
      = 1 ∧
    (∀ q ∈ (analyzeCommands ⟨iamDB, fun _ _ => [], fun _ _ => [], true⟩
        ["aws frobsvc do-thing"] false true).requiredPermissions,
      q.action = (generateFallbackPermission
          ⟨"frobsvc", "do-thing", [], [], "aws frobsvc do-thing"⟩).action →
        q.resource = "*") ∧
    (analyzeCommands ⟨iamDB, fun _ _ => [], fun _ _ => [], true⟩
        ["aws frobsvc do-thing"] false true).warnings =
      (if (true : Bool) then
        ["Unknown command \x27aws frobsvc do-thing\x27 - generated basic fallback: " ++
          (generateFallbackPermission
            ⟨"frobsvc", "do-thing", [], [], "aws frobsvc do-thing"⟩).action]
      else [])) :=
  ⟨rfl,
    unknown_service_fallback ⟨iamDB, fun _ _ => [], fun _ _ => [], true⟩
      "aws frobsvc do-thing" ⟨"frobsvc", "do-thing", [], [], "aws frobsvc do-thing"⟩
      false true rfl (by decide) (by decide) rfl rfl⟩

/-! ### Batch resilience (C6) -/

/-- The `services_used` accumulation step. -/
def serviceStep (acc : List String) (c : String) : List String :=
  match stepService c with
  | some sv => insertIfAbsent sv acc
  | none => acc

theorem foldl_step_components (cfg : AnalyzerCfg) (strict : Bool) :
    ∀ (cs : List String) (s : LoopState),
      (cs.foldl (stepCommand cfg strict) s).parsedCommands =
          s.parsedCommands ++ cs.flatMap stepParsed ∧
      (cs.foldl (stepCommand cfg strict) s).allPermissions =
          s.allPermissions ++ cs.flatMap (stepPermissions cfg strict) ∧
      (cs.foldl (stepCommand cfg strict) s).missingCommands =
          s.missingCommands ++ cs.flatMap (stepMissing cfg) ∧
      (cs.foldl (stepCommand cfg strict) s).warnings =
          s.warnings ++ cs.flatMap (stepWarnings cfg) ∧
      (cs.foldl (stepCommand cfg strict) s).allResourceArns =
          s.allResourceArns ++ cs.flatMap (stepArns cfg) ∧
      (cs.foldl (stepCommand cfg strict) s).servicesUsed =
          cs.foldl serviceStep s.servicesUsed
  | [], s => by simp
  | c :: cs, s => by
    obtain ⟨h1, h2, h3, h4, h5, h6⟩ :=
      foldl_step_components cfg strict cs (stepCommand cfg strict s c)
    rw [List.foldl_cons]
    refine ⟨?_, ?_, ?_, ?_, ?_, ?_⟩
    · rw [h1, List.flatMap_cons, ← List.append_assoc]
      rfl
    · rw [h2, List.flatMap_cons, ← List.append_assoc]
      rfl
    · rw [h3, List.flatMap_cons, ← List.append_assoc]
      rfl
    · rw [h4, List.flatMap_cons, ← List.append_assoc]
      rfl
    · rw [h5, List.flatMap_cons, ← List.append_assoc]
      rfl
    · rw [h6, List.foldl_cons]
      rfl

theorem analyzeCommands_eq (cfg : AnalyzerCfg) (cs : List String)
    (strict incl : Bool) :
    analyzeCommands cfg cs strict incl =
      { commands := cs.flatMap stepParsed
        requiredPermissions := deduplicatePermissions
          (if incl then
            cs.flatMap (stepPermissions cfg strict) ++
              getReadOnlyPermissions (cs.foldl serviceStep [])
          else cs.flatMap (stepPermissions cfg strict))
        policyDocument := generatePolicyDocument (deduplicatePermissions
          (if incl then
            cs.flatMap (stepPermissions cfg strict) ++
              getReadOnlyPermissions (cs.foldl serviceStep [])
          else cs.flatMap (stepPermissions cfg strict)))
        missingCommands := cs.flatMap (stepMissing cfg)
        warnings := cs.flatMap (stepWarnings cfg)
        resourceArns := dedupFirst (cs.flatMap (stepArns cfg))
        servicesUsed := cs.foldl serviceStep [] } := by
  obtain ⟨h1, h2, h3, h4, h5, h6⟩ :=
    foldl_step_components cfg strict cs ⟨[], [], [], [], [], []⟩
  simp only [analyzeCommands]
  rw [h1, h2, h3, h4, h5, h6]
  simp

/-- C6: a command that fails to parse only contributes one warning — the
rest of the batch is analyzed exactly as if the bad command were absent and
a policy document is still produced — while the single-command wrapper on
unparseable text raises. -/
theorem batch_resilience (cfg : AnalyzerCfg) (strict incl : Bool)
    (pre post : List String) (bad e : String)
    (hbad : parseCommand bad = .error e) :
    ((analyzeCommands cfg (pre ++ bad :: post) strict incl).commands =
        (analyzeCommands cfg (pre ++ post) strict incl).commands) ∧
    ((analyzeCommands cfg (pre ++ bad :: post) strict incl).requiredPermissions =
        (analyzeCommands cfg (pre ++ post) strict incl).requiredPermissions) ∧
    ((analyzeCommands cfg (pre ++ bad :: post) strict incl).policyDocument =
        (analyzeCommands cfg (pre ++ post) strict incl).policyDocument) ∧
    ((analyzeCommands cfg (pre ++ bad :: post) strict incl).missingCommands =
        (analyzeCommands cfg (pre ++ post) strict incl).missingCommands) ∧
    ((analyzeCommands cfg (pre ++ bad :: post) strict incl).resourceArns =
        (analyzeCommands cfg (pre ++ post) strict incl).resourceArns) ∧
    ((analyzeCommands cfg (pre ++ bad :: post) strict incl).servicesUsed =
        (analyzeCommands cfg (pre ++ post) strict incl).servicesUsed) ∧
    (∃ w1 w2,
      (analyzeCommands cfg (pre ++ post) strict incl).warnings = w1 ++ w2 ∧
      (analyzeCommands cfg (pre ++ bad :: post) strict incl).warnings =
        w1 ++ ("Failed to parse command \x27" ++ bad ++ "\x27: " ++ e) :: w2) ∧
    (analyzeCommand cfg bad strict incl =
      .error ("Failed to parse command: " ++ bad)) := by
  have hparsed : stepParsed bad = [] := by simp [stepParsed, hbad]
  have hperm : stepPermissions cfg strict bad = [] := by
    simp [stepPermissions, hbad]
  have hmiss : stepMissing cfg bad = [] := by simp [stepMissing, hbad]
  have harns : stepArns cfg bad = [] := by simp [stepArns, hbad]
  have hsvc : stepService bad = none := by simp [stepService, hbad]
  have hwarn : stepWarnings cfg bad =
      ["Failed to parse command \x27" ++ bad ++ "\x27: " ++ e] := by
    simp [stepWarnings, hbad]
  have hservices : (pre ++ bad :: post).foldl serviceStep ([] : List String) =
      (pre ++ post).foldl serviceStep [] := by
    rw [List.foldl_append, List.foldl_append, List.foldl_cons, serviceStep, hsvc]
  have hflat : ∀ {β : Type} (f : String → List β), f bad = [] →
      (pre ++ bad :: post).flatMap f = (pre ++ post).flatMap f := by
    intro β f hf
    rw [List.flatMap_append, List.flatMap_cons, hf, List.nil_append,
      List.flatMap_append]
  rw [analyzeCommands_eq cfg (pre ++ bad :: post) strict incl,
    analyzeCommands_eq cfg (pre ++ post) strict incl]
  refine ⟨?_, ?_, ?_, ?_, ?_, ?_, ?_, ?_⟩
  · exact hflat stepParsed hparsed
  · rw [hflat (stepPermissions cfg strict) hperm, hservices]
  · rw [hflat (stepPermissions cfg strict) hperm, hservices]
  · exact hflat (stepMissing cfg) hmiss
  · rw [hflat (stepArns cfg) harns]
  · exact hservices
  · refine ⟨pre.flatMap (stepWarnings cfg), post.flatMap (stepWarnings cfg),
      ?_, ?_⟩
    · show (pre ++ post).flatMap (stepWarnings cfg) = _
      rw [List.flatMap_append]
    · show (pre ++ bad :: post).flatMap (stepWarnings cfg) = _
      rw [List.flatMap_append, List.flatMap_cons, hwarn]
      simp
  · unfold analyzeCommand
    rw [analyzeCommands_eq cfg [bad] strict incl]
    simp [hparsed]

/-- Closed instance of `batch_resilience` on a concrete batch. -/
theorem batch_resilience_witness :
    parseCommand "aws invalid nonsense" =
      .error "Invalid AWS CLI command format: aws invalid nonsense" ∧
    (((analyzeCommands ⟨iamDB, fun _ _ => [], fun _ _ => [], false⟩
        (["aws s3 ls"] ++ "aws invalid nonsense" :: ["aws s3 mb s3://bkt"])
        false true).commands =
        (analyzeCommands ⟨iamDB, fun _ _ => [], fun _ _ => [], false⟩
          (["aws s3 ls"] ++ ["aws s3 mb s3://bkt"]) false true).commands) ∧
    ((analyzeCommands ⟨iamDB, fun _ _ => [], fun _ _ => [], false⟩
        (["aws s3 ls"] ++ "aws invalid nonsense" :: ["aws s3 mb s3://bkt"])
        false true).requiredPermissions =
        (analyzeCommands ⟨iamDB, fun _ _ => [], fun _ _ => [], false⟩
          (["aws s3 ls"] ++ ["aws s3 mb s3://bkt"]) false true).requiredPermissions) ∧
    ((analyzeCommands ⟨iamDB, fun _ _ => [], fun _ _ => [], false⟩
        (["aws s3 ls"] ++ "aws invalid nonsense" :: ["aws s3 mb s3://bkt"])
        false true).policyDocument =
        (analyzeCommands ⟨iamDB, fun _ _ => [], fun _ _ => [], false⟩
          (["aws s3 ls"] ++ ["aws s3 mb s3://bkt"]) false true).policyDocument) ∧
    ((analyzeCommands ⟨iamDB, fun _ _ => [], fun _ _ => [], false⟩
        (["aws s3 ls"] ++ "aws invalid nonsense" :: ["aws s3 mb s3://bkt"])
        false true).missingCommands =
        (analyzeCommands ⟨iamDB, fun _ _ => [], fun _ _ => [], false⟩
          (["aws s3 ls"] ++ ["aws s3 mb s3://bkt"]) false true).missingCommands) ∧
    ((analyzeCommands ⟨iamDB, fun _ _ => [], fun _ _ => [], false⟩
        (["aws s3 ls"] ++ "aws invalid nonsense" :: ["aws s3 mb s3://bkt"])
        false true).resourceArns =
        (analyzeCommands ⟨iamDB, fun _ _ => [], fun _ _ => [], false⟩
          (["aws s3 ls"] ++ ["aws s3 mb s3://bkt"]) false true).resourceArns) ∧
    ((analyzeCommands ⟨iamDB, fun _ _ => [], fun _ _ => [], false⟩
        (["aws s3 ls"] ++ "aws invalid nonsense" :: ["aws s3 mb s3://bkt"])
        false true).servicesUsed =
        (analyzeCommands ⟨iamDB, fun _ _ => [], fun _ _ => [], false⟩
          (["aws s3 ls"] ++ ["aws s3 mb s3://bkt"]) false true).servicesUsed) ∧
    (∃ w1 w2,
      (analyzeCommands ⟨iamDB, fun _ _ => [], fun _ _ => [], false⟩
        (["aws s3 ls"] ++ ["aws s3 mb s3://bkt"]) false true).warnings = w1 ++ w2 ∧
      (analyzeCommands ⟨iamDB, fun _ _ => [], fun _ _ => [], false⟩
        (["aws s3 ls"] ++ "aws invalid nonsense" :: ["aws s3 mb s3://bkt"])
        false true).warnings =
        w1 ++ ("Failed to parse command \x27" ++ "aws invalid nonsense" ++ "\x27: " ++
          "Invalid AWS CLI command format: aws invalid nonsense") :: w2) ∧
    (analyzeCommand ⟨iamDB, fun _ _ => [], fun _ _ => [], false⟩
        "aws invalid nonsense" false true =
      .error ("Failed to parse command: " ++ "aws invalid nonsense"))) :=
  ⟨rfl,
    batch_resilience ⟨iamDB, fun _ _ => [], fun _ _ => [], false⟩ false true
      ["aws s3 ls"] ["aws s3 mb s3://bkt"] "aws invalid nonsense"
      "Invalid AWS CLI command format: aws invalid nonsense" rfl⟩

/-! ### Least-privilege security conditions (C5) -/

/-- What `_add_security_conditions` owes each statement: data-operation
statements gain the secure-transport requirement merged into (never
overwriting) the pre-existing condition, all other statements and fields
are untouched. -/
def secureMergeRel (st st0 : Statement) : Prop :=
  st.action = st0.action ∧ st.resource = st0.resource ∧ st.effect = st0.effect ∧
  (st0.action.any isDataAction = false → st = st0) ∧
  (st0.action.any isDataAction = true →
    ∃ c : Cond, st.condition = some c ∧
      (∀ kv ∈ st0.condition.getD [], kv.1 ≠ "Bool" → kv ∈ c) ∧
      ∃ b : CondBlock,
        ("Bool", b) ∈ c ∧ ("aws:SecureTransport", "true") ∈ b ∧
        (∀ e ∈ (assocGet (st0.condition.getD []) "Bool").getD [],
          e.1 ≠ "aws:SecureTransport" → e ∈ b))

theorem secure_mem_condBlockUpsert (blk : CondBlock) :
    ("aws:SecureTransport", "true") ∈
      condBlockUpsert blk "aws:SecureTransport" "true" := by
  unfold condBlockUpsert
  split
  · rename_i hany
    obtain ⟨e, he, hek⟩ := List.any_eq_true.mp hany
    have hek' : e.1 = "aws:SecureTransport" := of_decide_eq_true hek
    refine List.mem_map.mpr ⟨e, he, ?_⟩
    rw [if_pos hek']
  · exact List.mem_append_right _ (List.mem_singleton.mpr rfl)

theorem keep_mem_condBlockUpsert {blk : CondBlock} {e : String × String}
    (he : e ∈ blk) (hne : e.1 ≠ "aws:SecureTransport") :
    e ∈ condBlockUpsert blk "aws:SecureTransport" "true" := by
  unfold condBlockUpsert
  split
  · exact List.mem_map.mpr ⟨e, he, if_neg hne⟩
  · exact List.mem_append_left _ he

theorem addSecurity_secureMergeRel (st0 : Statement) :
    secureMergeRel (addSecurityToStatement st0) st0 := by
  by_cases hd : st0.action.any isDataAction = true
  case neg =>
    have hd' : st0.action.any isDataAction = false := Bool.eq_false_iff.mpr hd
    unfold addSecurityToStatement
    rw [if_neg hd]
    exact ⟨rfl, rfl, rfl, fun _ => rfl, fun h => absurd h hd⟩
  case pos =>
    unfold addSecurityToStatement
    rw [if_pos hd]
    refine ⟨rfl, rfl, rfl,
      fun hf => by rw [hf] at hd; exact absurd hd (by decide), fun _ => ?_⟩
    refine ⟨_, rfl, ?_, ?_⟩
    · -- non-Bool operators are kept
      intro kv hkv hne
      split
      · exact List.mem_map.mpr ⟨kv, hkv, if_neg hne⟩
      · exact List.mem_append_left _ hkv
    · -- the Bool block
      split
      · rename_i hany
        have hsome : (st0.condition.getD []).find?
            (fun kv => decide (kv.1 = "Bool")) |>.isSome := by
          rw [List.find?_isSome]
          exact List.any_eq_true.mp hany
        obtain ⟨kv0, ho⟩ := Option.isSome_iff_exists.mp hsome
        have hmem0 := List.mem_of_find?_eq_some ho
        have hkey0 : kv0.1 = "Bool" := by
          have h := List.find?_some ho
          exact of_decide_eq_true h
        refine ⟨condBlockUpsert kv0.2 "aws:SecureTransport" "true", ?_, ?_, ?_⟩
        · refine List.mem_map.mpr ⟨kv0, hmem0, ?_⟩
          rw [if_pos hkey0, hkey0]
        · exact secure_mem_condBlockUpsert kv0.2
        · intro e he hne
          have hblock : (assocGet (st0.condition.getD []) "Bool").getD [] = kv0.2 := by
            unfold assocGet
            rw [ho]
            rfl
          rw [hblock] at he
          exact keep_mem_condBlockUpsert he hne
      · rename_i hany
        refine ⟨securityBlock, ?_, ?_, ?_⟩
        · exact List.mem_append_right _ (List.mem_singleton.mpr rfl)
        · exact List.mem_singleton.mpr rfl
        · intro e he _
          have hnone : (st0.condition.getD []).find?
              (fun kv => decide (kv.1 = "Bool")) = none := by
            rw [List.find?_eq_none]
            intro x hx hdec
            exact hany (List.any_eq_true.mpr ⟨x, hx, hdec⟩)
          unfold assocGet at he
          rw [hnone] at he
          cases he

/-- C5: in the least-privilege policy, every statement whose actions contain
a get/put/post/upload/download keyword carries the secure-transport boolean
requirement merged into its pre-existing condition block (other condition
operators kept alongside, an existing `Bool` block extended), and every
other statement is returned unchanged from the pre-security document. -/
theorem least_privilege_secure_transport (cfg : AnalyzerCfg)
    (commands : List String) (accountId region : Option String) :
    List.Forall₂ secureMergeRel
      (generateLeastPrivilegePolicy cfg commands accountId region).statement
      (leastPrivilegeBase cfg commands accountId region).statement ∧
    (∀ st ∈ (generateLeastPrivilegePolicy cfg commands accountId region).statement,
      st.action.any isDataAction = true →
        ∃ c : Cond, st.condition = some c ∧
          ∃ b : CondBlock, ("Bool", b) ∈ c ∧ ("aws:SecureTransport", "true") ∈ b) := by
  constructor
  · exact forall₂_map_self (fun st0 _ => addSecurity_secureMergeRel st0)
  · intro st hst hdata
    obtain ⟨st0, _, rfl⟩ := List.mem_map.mp hst
    have hrel := addSecurity_secureMergeRel st0
    have hdata0 : st0.action.any isDataAction = true := by
      rw [← hrel.1]
      exact hdata
    obtain ⟨c, hc, _, b, hb, hsb, _⟩ := hrel.2.2.2.2 hdata0
    exact ⟨c, hc, b, hb, hsb⟩

/-- Closed instance of `least_privilege_secure_transport` on a concrete
copy command. -/
theorem least_privilege_secure_transport_witness :
    List.Forall₂ secureMergeRel
      (generateLeastPrivilegePolicy ⟨iamDB, fun _ _ => [], fun _ _ => [], false⟩
        ["aws s3 cp file.txt s3://bucket-a/x"] none none).statement
      (leastPrivilegeBase ⟨iamDB, fun _ _ => [], fun _ _ => [], false⟩
        ["aws s3 cp file.txt s3://bucket-a/x"] none none).statement ∧
    (∀ st ∈ (generateLeastPrivilegePolicy ⟨iamDB, fun _ _ => [], fun _ _ => [], false⟩
        ["aws s3 cp file.txt s3://bucket-a/x"] none none).statement,
      st.action.any isDataAction = true →
        ∃ c : Cond, st.condition = some c ∧
          ∃ b : CondBlock, ("Bool", b) ∈ c ∧ ("aws:SecureTransport", "true") ∈ b) :=
  least_privilege_secure_transport ⟨iamDB, fun _ _ => [], fun _ _ => [], false⟩
    ["aws s3 cp file.txt s3://bucket-a/x"] none none

/-! ### Service summary attribution (C8) -/

/-- C8 counterexample: the `lambda create-function` catalog entry requires
`iam:PassRole`, which appears in the required permissions but under no
service of the summary (its `iam` prefix is not among the command
services). -/
theorem service_summary_dropped_permission :
    ((⟨"iam:PassRole", "*", none, "Allow"⟩ : IAMPermission) ∈
      (analyzeCommands ⟨iamDB, fun _ _ => [], fun _ _ => [], false⟩
        ["aws lambda create-function"] false true).requiredPermissions) ∧
    (∀ e ∈ getServiceSummary ⟨iamDB, fun _ _ => [], fun _ _ => [], false⟩
        ["aws lambda create-function"],
      "iam:PassRole" ∉ e.2.permissions) := by
  refine ⟨?_, ?_⟩ <;> decide

theorem foldl_preserve {α β : Type} (f : β → α → β) (Q : β → Prop)
    (h : ∀ b a, Q b → Q (f b a)) : ∀ (l : List α) (b : β), Q b → Q (l.foldl f b)
  | [], _, hb => hb
  | a :: l, b, hb => foldl_preserve f Q h l (f b a) (h b a hb)

theorem mem_foldl_insertIfAbsent_base {a : String} :
    ∀ (l base : List String), a ∈ base →
      a ∈ l.foldl (fun r x => insertIfAbsent x r) base
  | [], _, h => h
  | x :: l, base, h =>
    mem_foldl_insertIfAbsent_base l (insertIfAbsent x base)
      (mem_insertIfAbsent_of_mem x h)

theorem mem_foldl_insertIfAbsent_elem {a : String} :
    ∀ (l base : List String), a ∈ l →
      a ∈ l.foldl (fun r x => insertIfAbsent x r) base
  | [], _, h => absurd h (List.not_mem_nil a)
  | x :: l, base, h => by
    rcases List.mem_cons.mp h with rfl | h
    · exact mem_foldl_insertIfAbsent_base l _ (self_mem_insertIfAbsent a base)
    · exact mem_foldl_insertIfAbsent_elem l _ h

theorem summaryAddPerm_preserves (sv act : String)
    (sm : List (String × ServiceSummary)) (q : IAMPermission)
    (hQ : ∀ e ∈ sm, e.1 = sv → act ∈ e.2.permissions) :
    ∀ e ∈ summaryAddPerm sm q, e.1 = sv → act ∈ e.2.permissions := by
  intro e he
  simp only [summaryAddPerm] at he
  split at he
  · obtain ⟨kv, hkv, rfl⟩ := List.mem_map.mp he
    by_cases hk : kv.1 = actionServiceOf q.action
    · rw [if_pos hk]
      intro hek
      exact mem_insertIfAbsent_of_mem _ (hQ kv hkv hek)
    · rw [if_neg hk]
      exact hQ kv hkv
  · exact hQ e he

theorem summaryAddPerm_attributes (sm : List (String × ServiceSummary))
    (q : IAMPermission) :
    ∀ e ∈ summaryAddPerm sm q, e.1 = actionServiceOf q.action →
      q.action ∈ e.2.permissions := by
  intro e he
  simp only [summaryAddPerm] at he
  split at he
  · obtain ⟨kv, hkv, rfl⟩ := List.mem_map.mp he
    by_cases hk : kv.1 = actionServiceOf q.action
    · rw [if_pos hk]
      intro _
      exact self_mem_insertIfAbsent _ _
    · rw [if_neg hk]
      intro hek
      exact absurd hek hk
  · rename_i hany
    intro hek
    exact absurd (List.any_eq_true.mpr ⟨e, he, decide_eq_true hek⟩) hany

theorem summaryAddCmd_preserves (sv act : String) (arns : List String)
    (sm : List (String × ServiceSummary)) (pc : ParsedCommand)
    (hP : ∃ e ∈ sm, e.1 = sv ∧ act ∈ e.2.actions ∧ ∀ a ∈ arns, a ∈ e.2.resources) :
    ∃ e ∈ summaryAddCmd sm pc, e.1 = sv ∧ act ∈ e.2.actions ∧
      ∀ a ∈ arns, a ∈ e.2.resources := by
  obtain ⟨e, he, hek, hact, hres⟩ := hP
  simp only [summaryAddCmd]
  have he' : e ∈ (if sm.any (fun kv => decide (kv.1 = pc.service)) then sm
      else sm ++ [(pc.service, ⟨[], [], []⟩)]) := by
    split
    · exact he
    · exact List.mem_append_left _ he
  by_cases hk : e.1 = pc.service
  · refine ⟨(e.1, { e.2 with
        actions := insertIfAbsent pc.action e.2.actions
        resources := pc.resourceArns.foldl (fun r a => insertIfAbsent a r)
          e.2.resources }), ?_, hek, ?_, ?_⟩
    · refine List.mem_map.mpr ⟨e, he', ?_⟩
      rw [if_pos hk]
    · exact mem_insertIfAbsent_of_mem _ hact
    · intro a ha
      exact mem_foldl_insertIfAbsent_base _ _ (hres a ha)
  · exact ⟨e, List.mem_map.mpr ⟨e, he', if_neg hk⟩, hek, hact, hres⟩

theorem summaryAddPerm_preserves_entry (sv act : String) (arns : List String)
    (sm : List (String × ServiceSummary)) (q : IAMPermission)
    (hP : ∃ e ∈ sm, e.1 = sv ∧ act ∈ e.2.actions ∧ ∀ a ∈ arns, a ∈ e.2.resources) :
    ∃ e ∈ summaryAddPerm sm q, e.1 = sv ∧ act ∈ e.2.actions ∧
      ∀ a ∈ arns, a ∈ e.2.resources := by
  obtain ⟨e, he, hek, hact, hres⟩ := hP
  simp only [summaryAddPerm]
  split
  · by_cases hk : e.1 = actionServiceOf q.action
    · refine ⟨(e.1, { e.2 with
          permissions := insertIfAbsent q.action e.2.permissions }),
        List.mem_map.mpr ⟨e, he, ?_⟩, hek, hact, hres⟩
      rw [if_pos hk]
    · exact ⟨e, List.mem_map.mpr ⟨e, he, if_neg hk⟩, hek, hact, hres⟩
  · exact ⟨e, he, hek, hact, hres⟩

theorem summaryAddCmd_registers (sm : List (String × ServiceSummary))
    (pc : ParsedCommand) :
    ∃ e ∈ summaryAddCmd sm pc, e.1 = pc.service ∧ pc.action ∈ e.2.actions ∧
      ∀ a ∈ pc.resourceArns, a ∈ e.2.resources := by
  simp only [summaryAddCmd]
  have hkey : ∃ e0 ∈ (if sm.any (fun kv => decide (kv.1 = pc.service)) then sm
      else sm ++ [(pc.service, ⟨[], [], []⟩)]), e0.1 = pc.service := by
    split
    · rename_i hany
      obtain ⟨kv, hkv, hd⟩ := List.any_eq_true.mp hany
      exact ⟨kv, hkv, of_decide_eq_true hd⟩
    · exact ⟨(pc.service, ⟨[], [], []⟩),
        List.mem_append_right _ (List.mem_singleton.mpr rfl), rfl⟩
  obtain ⟨e0, he0, hk⟩ := hkey
  refine ⟨(e0.1, { e0.2 with
      actions := insertIfAbsent pc.action e0.2.actions
      resources := pc.resourceArns.foldl (fun r a => insertIfAbsent a r)
        e0.2.resources }), ?_, hk, self_mem_insertIfAbsent _ _, ?_⟩
  · refine List.mem_map.mpr ⟨e0, he0, ?_⟩
    rw [if_pos hk]
  · intro a ha
    exact mem_foldl_insertIfAbsent_elem _ _ ha

/-- C8 (amended): a required permission is attributed to the summary entry
of its action-prefix service whenever that service is a key of the summary
(permissions whose prefix names no command service are dropped), and every
parsed command's action and discovered ARNs appear under the command's
service. -/
theorem service_summary_attribution (cfg : AnalyzerCfg) (commands : List String) :
    (∀ p ∈ (analyzeCommands cfg commands false true).requiredPermissions,
      ∀ e ∈ getServiceSummary cfg commands,
        e.1 = actionServiceOf p.action → p.action ∈ e.2.permissions) ∧
    (∀ pc ∈ (analyzeCommands cfg commands false true).commands,
      ∃ e ∈ getServiceSummary cfg commands,
        e.1 = pc.service ∧ pc.action ∈ e.2.actions ∧
        ∀ a ∈ pc.resourceArns, a ∈ e.2.resources) := by
  have hsum : getServiceSummary cfg commands =
      ((analyzeCommands cfg commands false true).requiredPermissions).foldl
        summaryAddPerm
        ((analyzeCommands cfg commands false true).commands.foldl summaryAddCmd []) :=
    rfl
  constructor
  · intro p hp e he hek
    obtain ⟨l1, l2, hsplit⟩ := List.append_of_mem hp
    rw [hsum, hsplit, List.foldl_append, List.foldl_cons] at he
    refine foldl_preserve summaryAddPerm
      (fun sm => ∀ e ∈ sm, e.1 = actionServiceOf p.action →
        p.action ∈ e.2.permissions)
      (fun b a hQ => summaryAddPerm_preserves _ _ b a hQ) l2 _
      (summaryAddPerm_attributes _ p) e he hek
  · intro pc hpc
    obtain ⟨l1, l2, hsplit⟩ := List.append_of_mem hpc
    rw [hsum, hsplit, List.foldl_append, List.foldl_cons]
    refine foldl_preserve summaryAddPerm
      (fun sm => ∃ e ∈ sm, e.1 = pc.service ∧ pc.action ∈ e.2.actions ∧
        ∀ a ∈ pc.resourceArns, a ∈ e.2.resources)
      (fun b a hP => summaryAddPerm_preserves_entry _ _ _ b a hP) _ _ ?_
    refine foldl_preserve summaryAddCmd
      (fun sm => ∃ e ∈ sm, e.1 = pc.service ∧ pc.action ∈ e.2.actions ∧
        ∀ a ∈ pc.resourceArns, a ∈ e.2.resources)
      (fun b a hP => summaryAddCmd_preserves _ _ _ b a hP) l2 _ ?_
    exact summaryAddCmd_registers _ pc

/-- Closed instance of `service_summary_attribution`. -/
theorem service_summary_attribution_witness :
    (∀ p ∈ (analyzeCommands ⟨iamDB, fun _ _ => [], fun _ _ => [], false⟩
        ["aws lambda create-function"] false true).requiredPermissions,
      ∀ e ∈ getServiceSummary ⟨iamDB, fun _ _ => [], fun _ _ => [], false⟩
          ["aws lambda create-function"],
        e.1 = actionServiceOf p.action → p.action ∈ e.2.permissions) ∧
    (∀ pc ∈ (analyzeCommands ⟨iamDB, fun _ _ => [], fun _ _ => [], false⟩
        ["aws lambda create-function"] false true).commands,
      ∃ e ∈ getServiceSummary ⟨iamDB, fun _ _ => [], fun _ _ => [], false⟩
          ["aws lambda create-function"],
        e.1 = pc.service ∧ pc.action ∈ e.2.actions ∧
        ∀ a ∈ pc.resourceArns, a ∈ e.2.resources) :=
  service_summary_attribution ⟨iamDB, fun _ _ => [], fun _ _ => [], false⟩
    ["aws lambda create-function"]

end IamGen
